import Mathlib

/-!
# PresentMon present-correlation engine: shallow embedding and verification

This file embeds the PresentData trace layer of PresentMon in Lean 4 and
proves properties of it.

* The provider-enabling logic and the event-record dispatch are translated
  from `PresentData/TraceSession.cpp` (`EnableProviders`,
  `EventRecordCallback`).
* The public dequeue API is translated from the inline member functions of
  `PMTraceConsumer` in `PresentData/PresentMonTraceConsumer.hpp`
  (`DequeueProcessEvents`, `DequeuePresentEvents`,
  `DequeueLostPresentEvents`).
* The present-correlation engine itself (`PresentMonTraceConsumer.cpp`) is
  not part of the source tree; the fragments of it that the theorems need
  are modelled from the specification's description of the Present Record
  Store, the Completion Engine, the deferral mechanism, the key indexes and
  the ring buffer.  Each such definition carries a doc comment starting
  `Modelled from the spec:`.

All definitions are executable; machine integers are modelled as `Nat`
(no arithmetic in this development overflows or relies on wrap-around).
-/

namespace PresentMon

/-! ## Data model: `ProcessEvent` and `PresentEvent`

Translated from `PresentMonTraceConsumer.hpp`.  Pointer-sized handles,
ids and QPC timestamps are modelled as `Nat`; only the fields used by the
theorems below are carried. -/

/-- `ProcessEvent` from `PresentMonTraceConsumer.hpp`: produced whenever a
process starts or stops. -/
structure ProcessEvent where
  ImageFileName : String
  QpcTime : Nat
  ProcessId : Nat
  IsStartEvent : Bool
deriving DecidableEq, Repr

/-- `Runtime` enum from `PresentMonTraceConsumer.hpp`. -/
inductive Runtime
  | DXGI
  | D3D9
  | Other
deriving DecidableEq, Repr

/-- `PresentMode` enum from `PresentMonTraceConsumer.hpp`. -/
inductive PresentMode
  | Unknown
  | Hardware_Legacy_Flip
  | Hardware_Legacy_Copy_To_Front_Buffer
  | Hardware_Independent_Flip
  | Composed_Flip
  | Composed_Copy_GPU_GDI
  | Composed_Copy_CPU_GDI
  | Composed_Composition_Atlas
  | Hardware_Composed_Independent_Flip
deriving DecidableEq, Repr

/-- `PresentResult` enum from `PresentMonTraceConsumer.hpp`. -/
inductive PresentResult
  | Unknown
  | Presented
  | Discarded
  | Error
deriving DecidableEq, Repr

/-- `PresentEvent` from `PresentMonTraceConsumer.hpp` (identity, timing and
runtime-supplied fields; the correlation-key fields used by the engine
fragments below are tracked in the engine states themselves). -/
structure PresentEvent where
  QpcTime : Nat
  ProcessId : Nat
  ThreadId : Nat
  TimeTaken : Nat
  ReadyTime : Nat
  ScreenTime : Nat
  SwapChainAddress : Nat
  SyncInterval : Int
  PresentFlags : Nat
  QueueSubmitSequence : Nat
  Runtime : Runtime
  PresentMode : PresentMode
  FinalState : PresentResult
  IsCompleted : Bool
  IsLost : Bool
deriving DecidableEq, Repr

/-! ## Trace session: provider enabling and event dispatch

Translated from `PresentData/TraceSession.cpp`. -/

/-- The ETW providers distinguished by `EventRecordCallback` in
`TraceSession.cpp` (compared there via `hdr.ProviderId` GUIDs). -/
inductive Provider
  | DxgKrnl              -- Microsoft_Windows_DxgKrnl::GUID
  | DXGI                 -- Microsoft_Windows_DXGI::GUID
  | D3D9                 -- Microsoft_Windows_D3D9::GUID
  | NTProcess            -- NT_Process::GUID
  | Win7PresentHistory   -- Microsoft_Windows_DxgKrnl::Win7::PRESENTHISTORY_GUID
  | EventMetadata        -- Microsoft_Windows_EventMetadata::GUID
  | Win32k               -- Microsoft_Windows_Win32k::GUID
  | DwmCore              -- Microsoft_Windows_Dwm_Core::GUID
  | DwmCoreWin7          -- Microsoft_Windows_Dwm_Core::Win7::GUID
  | Win7Blt              -- Microsoft_Windows_DxgKrnl::Win7::BLT_GUID
  | Win7Flip             -- Microsoft_Windows_DxgKrnl::Win7::FLIP_GUID
  | Win7QueuePacket      -- Microsoft_Windows_DxgKrnl::Win7::QUEUEPACKET_GUID
  | Win7VSyncDPC         -- Microsoft_Windows_DxgKrnl::Win7::VSYNCDPC_GUID
  | Win7MMIOFlip         -- Microsoft_Windows_DxgKrnl::Win7::MMIOFLIP_GUID
  | SpectrumContinuous   -- SPECTRUMCONTINUOUS_PROVIDER_GUID
  | DHD                  -- DHD_PROVIDER_GUID
  | Unlisted             -- any other provider GUID
deriving DecidableEq, Repr

/-- The handler a dispatched event record is routed to.  `Ignored` stands
for `EventRecordCallback` returning without calling any handler. -/
inductive Handler
  | HandleDXGKEvent
  | HandleDXGIEvent
  | HandleD3D9Event
  | HandleNTProcessEvent
  | HandleWin7DxgkPresentHistory
  | HandleMetadataEvent
  | HandleWin32kEvent
  | HandleDWMEvent
  | HandleWin7DxgkBlt
  | HandleWin7DxgkFlip
  | HandleWin7DxgkQueuePacket
  | HandleWin7DxgkVSyncDPC
  | HandleWin7DxgkMMIOFlip
  | HandleSpectrumContinuousEvent
  | HandleDHDEvent
  | Ignored
deriving DecidableEq, Repr

/-- `EventRecordCallback<SAVE_FIRST_TIMESTAMP, TRACK_DISPLAY, TRACK_WMR>`
from `TraceSession.cpp`, as a routing function from provider id to the
handler invoked.  The `if` chain mirrors the source order; the
`TRACK_DISPLAY` and `TRACK_WMR` template parameters become the two `Bool`
arguments (`SAVE_FIRST_TIMESTAMP` only affects timestamp capture, not
routing). -/
def EventRecordCallback (trackDisplay trackWMR : Bool) (p : Provider) : Handler :=
  if p = Provider.DxgKrnl then Handler.HandleDXGKEvent
  else if p = Provider.DXGI then Handler.HandleDXGIEvent
  else if p = Provider.D3D9 then Handler.HandleD3D9Event
  else if p = Provider.NTProcess then Handler.HandleNTProcessEvent
  else if p = Provider.Win7PresentHistory then Handler.HandleWin7DxgkPresentHistory
  else if p = Provider.EventMetadata then Handler.HandleMetadataEvent
  else if trackDisplay ∧ p = Provider.Win32k then Handler.HandleWin32kEvent
  else if trackDisplay ∧ p = Provider.DwmCore then Handler.HandleDWMEvent
  else if trackDisplay ∧ p = Provider.DwmCoreWin7 then Handler.HandleDWMEvent
  else if trackDisplay ∧ p = Provider.Win7Blt then Handler.HandleWin7DxgkBlt
  else if trackDisplay ∧ p = Provider.Win7Flip then Handler.HandleWin7DxgkFlip
  else if trackDisplay ∧ p = Provider.Win7QueuePacket then Handler.HandleWin7DxgkQueuePacket
  else if trackDisplay ∧ p = Provider.Win7VSyncDPC then Handler.HandleWin7DxgkVSyncDPC
  else if trackDisplay ∧ p = Provider.Win7MMIOFlip then Handler.HandleWin7DxgkMMIOFlip
  else if trackDisplay ∧ trackWMR ∧ p = Provider.SpectrumContinuous then
    Handler.HandleSpectrumContinuousEvent
  else if trackWMR ∧ p = Provider.DHD then Handler.HandleDHDEvent
  else Handler.Ignored

/-- The `Microsoft_Windows_DxgKrnl` event ids that `EnableProviders` can
place in the provider's event-id filter (`TraceSession.cpp`). -/
inductive DxgkEventId
  | PresentHistory_Start
  | Blit_Info
  | Flip_Info
  | IndependentFlip_Info
  | FlipMultiPlaneOverlay_Info
  | HSyncDPCMultiPlane_Info
  | VSyncDPCMultiPlane_Info
  | MMIOFlip_Info
  | MMIOFlipMultiPlaneOverlay_Info
  | Present_Info
  | PresentHistory_Info
  | PresentHistoryDetailed_Start
  | QueuePacket_Start
  | QueuePacket_Stop
  | VSyncDPC_Info
deriving DecidableEq, Repr

/-- The event-id filter `EnableProviders` installs for the
`Microsoft_Windows_DxgKrnl` provider: `PresentHistory_Start` always, the
remaining ids only when `pmConsumer->mTrackDisplay` is set
(`TraceSession.cpp`). -/
def enabledDxgkEventIds (mTrackDisplay : Bool) : List DxgkEventId :=
  DxgkEventId.PresentHistory_Start ::
    (if mTrackDisplay then
      [DxgkEventId.Blit_Info,
       DxgkEventId.Flip_Info,
       DxgkEventId.IndependentFlip_Info,
       DxgkEventId.FlipMultiPlaneOverlay_Info,
       DxgkEventId.HSyncDPCMultiPlane_Info,
       DxgkEventId.VSyncDPCMultiPlane_Info,
       DxgkEventId.MMIOFlip_Info,
       DxgkEventId.MMIOFlipMultiPlaneOverlay_Info,
       DxgkEventId.Present_Info,
       DxgkEventId.PresentHistory_Info,
       DxgkEventId.PresentHistoryDetailed_Start,
       DxgkEventId.QueuePacket_Start,
       DxgkEventId.QueuePacket_Stop,
       DxgkEventId.VSyncDPC_Info]
     else [])

/-- The `Microsoft_Windows_DXGI` event-id filter installed by
`EnableProviders`, unconditional (`TraceSession.cpp`); names mirror
`Microsoft_Windows_DXGI::*::Id`. -/
def enabledDxgiEventIds : List String :=
  ["Present_Start", "Present_Stop",
   "PresentMultiplaneOverlay_Start", "PresentMultiplaneOverlay_Stop"]

/-- The `Microsoft_Windows_D3D9` event-id filter installed by
`EnableProviders`, unconditional (`TraceSession.cpp`). -/
def enabledD3D9EventIds : List String :=
  ["Present_Start", "Present_Stop"]

/-- Whether `EnableProviders` enables the `Microsoft_Windows_Win32k`
provider: only inside the `if (pmConsumer->mTrackDisplay)` block
(`TraceSession.cpp`). -/
def win32kProviderEnabled (mTrackDisplay : Bool) : Bool :=
  mTrackDisplay

/-- Whether `EnableProviders` enables the `Microsoft_Windows_Dwm_Core`
provider (and its Win7 GUID): only inside the
`if (pmConsumer->mTrackDisplay)` block (`TraceSession.cpp`). -/
def dwmProviderEnabled (mTrackDisplay : Bool) : Bool :=
  mTrackDisplay

/-- Whether `EnableProviders` enables the Win7 DxgKrnl provider GUID
(`Microsoft_Windows_DxgKrnl::Win7::GUID`): unconditional
(`TraceSession.cpp`). -/
def win7DxgkProviderEnabled : Bool :=
  true

/-! ## Public dequeue API

Translated from the inline member functions of `PMTraceConsumer` in
`PresentMonTraceConsumer.hpp`.  The state carries the three output queues
together with the in-progress tracking structures of the consumer (keys
and record identities as `Nat`), so that the frame conditions of the
dequeue operations can be stated.  Each dequeue operation is a pure
function from (state, caller vector) to (returned vector, new state,
mutexes acquired); the mutex list records the `std::lock_guard`
acquisitions the source performs during the call. -/

/-- The three mutexes of `PMTraceConsumer` protecting the output queues
(`mPresentEventMutex`, `mLostPresentEventMutex`, `mProcessEventMutex`). -/
inductive MutexId
  | mPresentEventMutex
  | mLostPresentEventMutex
  | mProcessEventMutex
deriving DecidableEq, Repr

/-- The fields of `struct PMTraceConsumer` relevant to the dequeue API:
the three output queues, plus the tracking structures (modelled as
association lists with `Nat` keys and record identities) that the dequeue
operations must leave untouched. -/
structure PMTraceConsumer where
  mCompletePresentEvents : List PresentEvent
  mLostPresentEvents : List PresentEvent
  mProcessEvents : List ProcessEvent
  mDeferredCompletions : List (Nat × List (Nat × Nat))
  mAllPresentsNextIndex : Nat
  mAllPresents : List (Option Nat)
  mPresentByThreadId : List (Nat × Nat)
  mPresentsByProcess : List (Nat × List (Nat × Nat))
  mPresentsBySubmitSequence : List (Nat × Nat)
  mWin32KPresentHistoryTokens : List ((Nat × Nat × Nat) × Nat)
  mDxgKrnlPresentHistoryTokens : List (Nat × Nat)
  mBltsByDxgContext : List (Nat × Nat)
  mLastWindowPresent : List (Nat × Nat)
  mPresentsWaitingForDWM : List Nat
  mPresentsByLegacyBlitToken : List (Nat × Nat)
  mTrackedProcessFilter : List Nat
deriving DecidableEq, Repr

/-- `PMTraceConsumer::DequeueProcessEvents(outProcessEvents)`:
under `mProcessEventMutex`, `outProcessEvents.swap(mProcessEvents)`.
Returns the contents handed to the caller, the new consumer state, and
the mutexes acquired. -/
def DequeueProcessEvents (s : PMTraceConsumer) (outProcessEvents : List ProcessEvent) :
    List ProcessEvent × PMTraceConsumer × List MutexId :=
  (s.mProcessEvents,
   { s with mProcessEvents := outProcessEvents },
   [MutexId.mProcessEventMutex])

/-- `PMTraceConsumer::DequeuePresentEvents(outPresentEvents)`:
under `mPresentEventMutex`, `outPresentEvents.swap(mCompletePresentEvents)`. -/
def DequeuePresentEvents (s : PMTraceConsumer) (outPresentEvents : List PresentEvent) :
    List PresentEvent × PMTraceConsumer × List MutexId :=
  (s.mCompletePresentEvents,
   { s with mCompletePresentEvents := outPresentEvents },
   [MutexId.mPresentEventMutex])

/-- `PMTraceConsumer::DequeueLostPresentEvents(outPresentEvents)`:
under `mLostPresentEventMutex`, `outPresentEvents.swap(mLostPresentEvents)`. -/
def DequeueLostPresentEvents (s : PMTraceConsumer) (outPresentEvents : List PresentEvent) :
    List PresentEvent × PMTraceConsumer × List MutexId :=
  (s.mLostPresentEvents,
   { s with mLostPresentEvents := outPresentEvents },
   [MutexId.mLostPresentEventMutex])

/-! ## Association-list indexes

The in-progress tracking structures of `PMTraceConsumer` are `std::map`s
from a correlation key to one live record.  They are embedded as
association lists; `lookupK` returns the binding of a key, if any. -/

/-- An index from correlation keys of type `κ` to record identities. -/
abbrev Index (κ : Type) : Type := List (κ × Nat)

/-- Look up the record bound to key `k`, scanning front to back. -/
def lookupK {κ : Type} [DecidableEq κ] (k : κ) : Index κ → Option Nat
  | [] => none
  | (k', r) :: rest => if k' = k then some r else lookupK k rest

/-- Remove every binding whose record identity is `r` (used when a record
is evicted: its entries are purged from an index). -/
def dropRec {κ : Type} (r : Nat) (idx : Index κ) : Index κ :=
  idx.filter (fun p => decide (p.2 ≠ r))

/-- The keys of an index are pairwise distinct. -/
def NodupKeys {κ : Type} (idx : Index κ) : Prop :=
  (idx.map Prod.fst).Nodup

/-- At most one live record is bound to any given key value. -/
def atMostOnePerKey {κ : Type} [DecidableEq κ] (idx : Index κ) : Prop :=
  ∀ k : κ, (idx.filter (fun p => decide (p.1 = k))).length ≤ 1

/-! ## Completion Engine: per-process emission order

Modelled from the spec: `PresentMonTraceConsumer.cpp` (`CompletePresent`,
`CompletePresentHelper`, `TrackPresent`, `RemoveLostPresent`) is not in
the source tree.  §4.2/§4.5 of the spec describe the per-process ordered
map `by_process_ordered` (`mPresentsByProcess`, keyed by `qpc_start`) and
the completion rule: when a record completes, every older still-live
record of the same process is completed first, in ascending `qpc_start`
order. -/

namespace PMOrder

/-- Modelled from the spec: the Completion Engine's view of the engine
state — for each process the ascending list of `qpc_start` keys of its
live records (`mPresentsByProcess`), and the emission order on the
completed output queue as (pid, `qpc_start`) pairs. -/
structure OState where
  mPresentsByProcess : Nat → List Nat
  completedOut : List (Nat × Nat)

/-- Ordered-map insertion of a `qpc_start` key into a process's ascending
key list; inserting an existing key leaves the map unchanged
(`std::map` emplace semantics). -/
def insertQpc (q : Nat) : List Nat → List Nat
  | [] => [q]
  | x :: xs =>
    if q < x then q :: x :: xs
    else if q = x then x :: xs
    else x :: insertQpc q xs

/-- Modelled from the spec: the operations of the Completion Engine that
touch the per-process ordered map — a record's creation (`TrackPresent`),
its completion (`CompletePresent`), and its removal as lost
(`RemoveLostPresent`, which does not emit on the completed queue). -/
inductive OOp
  | trackPresent (pid qpc : Nat)
  | completePresent (pid qpc : Nat)
  | removeLostPresent (pid qpc : Nat)
deriving DecidableEq, Repr

/-- Modelled from the spec (§4.2, §4.5): one Completion Engine step.
`trackPresent` inserts the new record into its process's ordered map;
`completePresent` emits, in ascending `qpc_start` order, every live
record of the process no newer than the completing one, and removes them
from the map; `removeLostPresent` drops a record without emitting it. -/
def stepO (op : OOp) (s : OState) : OState :=
  match op with
  | .trackPresent pid qpc =>
      { s with mPresentsByProcess := fun p =>
          if p = pid then insertQpc qpc (s.mPresentsByProcess p)
          else s.mPresentsByProcess p }
  | .completePresent pid qpc =>
      if qpc ∈ s.mPresentsByProcess pid then
        { mPresentsByProcess := fun p =>
            if p = pid then (s.mPresentsByProcess p).dropWhile (fun x => decide (x ≤ qpc))
            else s.mPresentsByProcess p,
          completedOut := s.completedOut ++
            ((s.mPresentsByProcess pid).takeWhile (fun x => decide (x ≤ qpc))).map
              (fun x => (pid, x)) }
      else s
  | .removeLostPresent pid qpc =>
      { s with mPresentsByProcess := fun p =>
          if p = pid then (s.mPresentsByProcess p).erase qpc
          else s.mPresentsByProcess p }

/-- Run a sequence of Completion Engine operations. -/
def runO (ops : List OOp) (s : OState) : OState :=
  ops.foldl (fun t op => stepO op t) s

/-- The empty engine state. -/
def initO : OState :=
  { mPresentsByProcess := fun _ => [], completedOut := [] }

/-- The `qpc_start` values emitted on the completed output queue for a
given process, in emission order. -/
def completedOf (s : OState) (pid : Nat) : List Nat :=
  (s.completedOut.filter (fun e => decide (e.1 = pid))).map Prod.snd

/-- The `qpc_start` carried by a `trackPresent` operation (the record's
creation), if the operation is one. -/
def trackQpc? : OOp → Option Nat
  | .trackPresent _ qpc => some qpc
  | _ => none

end PMOrder

/-! ## Present Record Store: correlation-key indexes and eviction

Modelled from the spec: the handlers' re-indexing discipline
(`PresentMonTraceConsumer.cpp` is not in the source tree).  §4.2 of the
spec: each index maps a key to one live record; when a handler learns a
new key for a record it installs the new index entry, evicting any
previous occupant as a lost record; eviction (`RemoveLostPresent`)
removes the prior record from all indexes and emits it on the lost
output queue. -/

namespace PMKeys

/-- Modelled from the spec: the seven correlation-key indexes of the
Present Record Store (field names follow `PMTraceConsumer`), plus the
lost output queue.  Record identities are `Nat`. -/
structure KState where
  mPresentByThreadId : Index Nat
  mPresentsBySubmitSequence : Index Nat
  mWin32KPresentHistoryTokens : Index (Nat × Nat × Nat)
  mDxgKrnlPresentHistoryTokens : Index Nat
  mBltsByDxgContext : Index Nat
  mLastWindowPresent : Index Nat
  mPresentsByLegacyBlitToken : Index Nat
  lostOut : List Nat

/-- Remove a record's bindings from every index (the index part of
`RemoveLostPresent` / completion purge). -/
def KState.removeRec (r : Nat) (s : KState) : KState :=
  { mPresentByThreadId := dropRec r s.mPresentByThreadId,
    mPresentsBySubmitSequence := dropRec r s.mPresentsBySubmitSequence,
    mWin32KPresentHistoryTokens := dropRec r s.mWin32KPresentHistoryTokens,
    mDxgKrnlPresentHistoryTokens := dropRec r s.mDxgKrnlPresentHistoryTokens,
    mBltsByDxgContext := dropRec r s.mBltsByDxgContext,
    mLastWindowPresent := dropRec r s.mLastWindowPresent,
    mPresentsByLegacyBlitToken := dropRec r s.mPresentsByLegacyBlitToken,
    lostOut := s.lostOut }

/-- Modelled from the spec: `RemoveLostPresent` — the record is removed
from all indexes and emitted on the lost output queue. -/
def KState.markLost (r : Nat) (s : KState) : KState :=
  let t := s.removeRec r
  { t with lostOut := t.lostOut ++ [r] }

/-- Modelled from the spec (§4.2 re-indexing): assign key `k` to record
`r` in the thread-id index.  If a different record currently holds the
key, it is evicted (marked lost) first; if `r` itself already holds it,
nothing changes. -/
def KState.assignThread (k r : Nat) (s : KState) : KState :=
  match lookupK k s.mPresentByThreadId with
  | some rp =>
      if rp = r then s
      else
        let t := s.markLost rp
        { t with mPresentByThreadId := (k, r) :: t.mPresentByThreadId }
  | none => { s with mPresentByThreadId := (k, r) :: s.mPresentByThreadId }

/-- Modelled from the spec (§4.2 re-indexing): assign a submit-sequence
key, evicting any different prior holder as lost. -/
def KState.assignSubmit (k r : Nat) (s : KState) : KState :=
  match lookupK k s.mPresentsBySubmitSequence with
  | some rp =>
      if rp = r then s
      else
        let t := s.markLost rp
        { t with mPresentsBySubmitSequence := (k, r) :: t.mPresentsBySubmitSequence }
  | none => { s with mPresentsBySubmitSequence := (k, r) :: s.mPresentsBySubmitSequence }

/-- Modelled from the spec (§4.2 re-indexing): assign a Win32K
composition-token triple key, evicting any different prior holder. -/
def KState.assignWin32K (k : Nat × Nat × Nat) (r : Nat) (s : KState) : KState :=
  match lookupK k s.mWin32KPresentHistoryTokens with
  | some rp =>
      if rp = r then s
      else
        let t := s.markLost rp
        { t with mWin32KPresentHistoryTokens := (k, r) :: t.mWin32KPresentHistoryTokens }
  | none => { s with mWin32KPresentHistoryTokens := (k, r) :: s.mWin32KPresentHistoryTokens }

/-- Modelled from the spec (§4.2 re-indexing): assign a kernel
present-history token key, evicting any different prior holder. -/
def KState.assignDxgKrnlToken (k r : Nat) (s : KState) : KState :=
  match lookupK k s.mDxgKrnlPresentHistoryTokens with
  | some rp =>
      if rp = r then s
      else
        let t := s.markLost rp
        { t with mDxgKrnlPresentHistoryTokens := (k, r) :: t.mDxgKrnlPresentHistoryTokens }
  | none => { s with mDxgKrnlPresentHistoryTokens := (k, r) :: s.mDxgKrnlPresentHistoryTokens }

/-- Modelled from the spec (§4.2 re-indexing): assign a blit-context key,
evicting any different prior holder. -/
def KState.assignBltContext (k r : Nat) (s : KState) : KState :=
  match lookupK k s.mBltsByDxgContext with
  | some rp =>
      if rp = r then s
      else
        let t := s.markLost rp
        { t with mBltsByDxgContext := (k, r) :: t.mBltsByDxgContext }
  | none => { s with mBltsByDxgContext := (k, r) :: s.mBltsByDxgContext }

/-- Modelled from the spec (§4.2 re-indexing): assign a window-handle key
(last present for the window), evicting any different prior holder. -/
def KState.assignLastWindow (k r : Nat) (s : KState) : KState :=
  match lookupK k s.mLastWindowPresent with
  | some rp =>
      if rp = r then s
      else
        let t := s.markLost rp
        { t with mLastWindowPresent := (k, r) :: t.mLastWindowPresent }
  | none => { s with mLastWindowPresent := (k, r) :: s.mLastWindowPresent }

/-- Modelled from the spec (§4.2 re-indexing): assign a legacy-blit-token
key, evicting any different prior holder. -/
def KState.assignLegacyBlit (k r : Nat) (s : KState) : KState :=
  match lookupK k s.mPresentsByLegacyBlitToken with
  | some rp =>
      if rp = r then s
      else
        let t := s.markLost rp
        { t with mPresentsByLegacyBlitToken := (k, r) :: t.mPresentsByLegacyBlitToken }
  | none => { s with mPresentsByLegacyBlitToken := (k, r) :: s.mPresentsByLegacyBlitToken }

/-- Modelled from the spec: the key-index operations a handler can
perform — assigning a key in one of the seven indexes, or removing a
record from all of them (completion/loss purge). -/
inductive KOp
  | assignThread (k r : Nat)
  | assignSubmit (k r : Nat)
  | assignWin32K (k : Nat × Nat × Nat) (r : Nat)
  | assignDxgKrnlToken (k r : Nat)
  | assignBltContext (k r : Nat)
  | assignLastWindow (k r : Nat)
  | assignLegacyBlit (k r : Nat)
  | removeRecord (r : Nat)
deriving DecidableEq, Repr

/-- One key-index step. -/
def stepK (op : KOp) (s : KState) : KState :=
  match op with
  | .assignThread k r => s.assignThread k r
  | .assignSubmit k r => s.assignSubmit k r
  | .assignWin32K k r => s.assignWin32K k r
  | .assignDxgKrnlToken k r => s.assignDxgKrnlToken k r
  | .assignBltContext k r => s.assignBltContext k r
  | .assignLastWindow k r => s.assignLastWindow k r
  | .assignLegacyBlit k r => s.assignLegacyBlit k r
  | .removeRecord r => s.removeRec r

/-- Run a sequence of key-index operations. -/
def runK (ops : List KOp) (s : KState) : KState :=
  ops.foldl (fun t op => stepK op t) s

/-- The empty Present Record Store. -/
def initK : KState :=
  { mPresentByThreadId := [],
    mPresentsBySubmitSequence := [],
    mWin32KPresentHistoryTokens := [],
    mDxgKrnlPresentHistoryTokens := [],
    mBltsByDxgContext := [],
    mLastWindowPresent := [],
    mPresentsByLegacyBlitToken := [],
    lostOut := [] }

/-- All seven indexes have pairwise-distinct keys. -/
def KState.NodupAll (s : KState) : Prop :=
  NodupKeys s.mPresentByThreadId ∧
  NodupKeys s.mPresentsBySubmitSequence ∧
  NodupKeys s.mWin32KPresentHistoryTokens ∧
  NodupKeys s.mDxgKrnlPresentHistoryTokens ∧
  NodupKeys s.mBltsByDxgContext ∧
  NodupKeys s.mLastWindowPresent ∧
  NodupKeys s.mPresentsByLegacyBlitToken

/-- Record `r` is bound somewhere in some index of the store. -/
def KState.holdsRec (s : KState) (r : Nat) : Prop :=
  r ∈ s.mPresentByThreadId.map Prod.snd ∨
  r ∈ s.mPresentsBySubmitSequence.map Prod.snd ∨
  r ∈ s.mWin32KPresentHistoryTokens.map Prod.snd ∨
  r ∈ s.mDxgKrnlPresentHistoryTokens.map Prod.snd ∨
  r ∈ s.mBltsByDxgContext.map Prod.snd ∨
  r ∈ s.mLastWindowPresent.map Prod.snd ∨
  r ∈ s.mPresentsByLegacyBlitToken.map Prod.snd

/-- A concrete store with record 0 bound in every index. -/
def sampleKState : KState :=
  { mPresentByThreadId := [(1, 0)],
    mPresentsBySubmitSequence := [(7, 0)],
    mWin32KPresentHistoryTokens := [((2, 3, 4), 0)],
    mDxgKrnlPresentHistoryTokens := [(5, 0)],
    mBltsByDxgContext := [(6, 0)],
    mLastWindowPresent := [(8, 0)],
    mPresentsByLegacyBlitToken := [(9, 0)],
    lostOut := [] }

/-- A concrete operation sequence exercising assignment, replacement and
removal. -/
def sampleKOps : List KOp :=
  [KOp.assignThread 1 0, KOp.assignSubmit 7 0, KOp.assignWin32K (2, 3, 4) 0,
   KOp.assignThread 1 1, KOp.removeRecord 1, KOp.assignThread 1 2]

end PMKeys

/-! ## Ring buffer `mAllPresents`

Modelled from the spec: `FindOrCreatePresent`'s ring insertion
(`PresentMonTraceConsumer.cpp` is not in the source tree).  §3 invariant 5
and §4.2: `all_records` has fixed capacity N; a new record is inserted at
`next_ring++` (wrapping); if the slot was occupied the prior occupant is
marked lost. -/

namespace PMRing

/-- Modelled from the spec: the ring-buffer state — the wrapped next
insertion index, the slot contents (record identities), and the lost
output queue.  Slots are total over `Nat`; only indices below the
capacity are ever written. -/
structure RState where
  mAllPresentsNextIndex : Nat
  mAllPresents : Nat → Option Nat
  lostOut : List Nat

/-- Modelled from the spec (§4.2 `FindOrCreate`): insert a new record
into `all_records` at `next_ring++` (wrapping at capacity `N`); if the
ring slot was occupied, the prior record is marked lost. -/
def ringInsert (N : Nat) (r : Nat) (s : RState) : RState :=
  let i := s.mAllPresentsNextIndex
  let lost' :=
    match s.mAllPresents i with
    | some old => s.lostOut ++ [old]
    | none => s.lostOut
  { mAllPresentsNextIndex := (i + 1) % N,
    mAllPresents := fun j => if j = i then some r else s.mAllPresents j,
    lostOut := lost' }

/-- Insert a list of new records in order (a stream of presents with no
completions). -/
def runRing (N : Nat) (rs : List Nat) (s : RState) : RState :=
  rs.foldl (fun t r => ringInsert N r t) s

/-- The empty ring buffer. -/
def initRing : RState :=
  { mAllPresentsNextIndex := 0, mAllPresents := fun _ => none, lostOut := [] }

/-- The number of live records: occupied slots among the `N` ring
positions. -/
def liveCount (N : Nat) (s : RState) : Nat :=
  ((List.range N).filter (fun j => (s.mAllPresents j).isSome)).length

/-- The default ring capacity the spec gives for `all_records`. -/
def defaultRingCapacity : Nat := 4096

end PMRing

/-! ## Deferred completions

Modelled from the spec: `CompleteDeferredCompletion` / `RuntimePresentStop`
(`PresentMonTraceConsumer.cpp` is not in the source tree).  §4.4: a record
whose final state is decided while further events are expected is held in
its process's `DeferredCompletions` list paired with a remaining-stops
count; each subsequent runtime present-stop on that process decrements
the counts; a record is emitted when its count reaches zero. -/

namespace PMDefer

/-- Modelled from the spec: per-process `DeferredCompletions` lists of
(record, `NumPresentStopsToWaitFor`) pairs (`mDeferredCompletions`), and
the completed output queue. -/
structure DState where
  mDeferredCompletions : Nat → List (Nat × Nat)
  completedOut : List Nat

/-- Modelled from the spec: the two operations that drive deferral — a
record entering its process's deferred list with a remaining-stops count,
and a runtime present-stop observed on a process. -/
inductive DOp
  | deferCompletion (pid r n : Nat)
  | presentStop (pid : Nat)
deriving DecidableEq, Repr

/-- Modelled from the spec (§4.4): one deferral step.  A present-stop on a
process decrements every remaining-stops count in that process's deferred
list; records whose count reaches zero are emitted on the completed
output queue (in list order) and removed from the list. -/
def stepD (op : DOp) (s : DState) : DState :=
  match op with
  | .deferCompletion pid r n =>
      { s with mDeferredCompletions := fun p =>
          if p = pid then s.mDeferredCompletions p ++ [(r, n)]
          else s.mDeferredCompletions p }
  | .presentStop pid =>
      let l := (s.mDeferredCompletions pid).map (fun e => (e.1, e.2 - 1))
      { mDeferredCompletions := fun p =>
          if p = pid then l.filter (fun e => decide (e.2 ≠ 0))
          else s.mDeferredCompletions p,
        completedOut := s.completedOut ++ (l.filter (fun e => decide (e.2 = 0))).map Prod.fst }

/-- Run a sequence of deferral operations. -/
def runD (ops : List DOp) (s : DState) : DState :=
  ops.foldl (fun t op => stepD op t) s

/-- The number of runtime present-stops a process observes in an
operation sequence. -/
def countStops (pid : Nat) (ops : List DOp) : Nat :=
  ops.countP (fun op => decide (op = DOp.presentStop pid))

/-- A concrete deferral state: process 10 holds record 5 deferred with
two remaining present-stops to wait for. -/
def sampleDState : DState :=
  { mDeferredCompletions := fun p => if p = 10 then [(5, 2)] else [],
    completedOut := [] }

end PMDefer

/-! ## Per-provider handlers: duplicate delivery and orphan events

Modelled from the spec: the handler bodies
(`PresentMonTraceConsumer.cpp`) are not in the source tree.  §4.3
describes the handler rules embedded here (runtime present begin/end via
the thread index, queue-submit keying by submit sequence with eviction,
MMIOFlip setting the ready time and VSyncDPC the screen time by submit
sequence); §7 error kind 1 describes orphan events (correlation key
resolves to no live record: dropped silently) and states that no error
kind is fatal to the engine. -/

namespace PMEngine

/-- Modelled from the spec: the fields of an in-flight present record the
embedded handlers read or write (names follow `PresentEvent`). -/
structure PRec where
  QpcTime : Nat
  ProcessId : Nat
  ThreadId : Nat
  SwapChainAddress : Nat
  SyncInterval : Int
  PresentFlags : Nat
  Runtime : Runtime
  TimeTaken : Nat
  ReadyTime : Nat
  ScreenTime : Nat
  QueueSubmitSequence : Nat
deriving DecidableEq, Repr

/-- Modelled from the spec: the handler-facing engine state — the
thread-id and submit-sequence indexes, the record store (identity to
record), the next fresh record identity, and the lost output queue. -/
structure EState where
  mPresentByThreadId : Index Nat
  mPresentsBySubmitSequence : Index Nat
  records : Nat → Option PRec
  nextId : Nat
  lostOut : List Nat

/-- Modelled from the spec: the typed events handled by the embedded
handler fragment — runtime present begin and end, graphics-kernel
queue-submit, MMIOFlip (ready time) and VSyncDPC (screen time). -/
inductive Ev
  | presentStart (tid pid qpc swap : Nat) (sync : Int) (flags : Nat) (rt : Runtime)
  | presentStop (tid qpc : Nat)
  | queueSubmit (tid seq : Nat)
  | mmioFlip (seq qpc : Nat)
  | vsyncDPC (seq qpc : Nat)
deriving DecidableEq, Repr

/-- A fresh record as created by `FindOrCreatePresent` for a runtime
present begin: keyed on (qpc, pid, tid) with the runtime-supplied fields
set and all derived times zero. -/
def newPRec (qpc pid tid swap : Nat) (sync : Int) (flags : Nat) (rt : Runtime) : PRec :=
  { QpcTime := qpc, ProcessId := pid, ThreadId := tid,
    SwapChainAddress := swap, SyncInterval := sync, PresentFlags := flags,
    Runtime := rt, TimeTaken := 0, ReadyTime := 0, ScreenTime := 0,
    QueueSubmitSequence := 0 }

/-- Set the runtime-supplied fields of a record (runtime present begin on
an existing record). -/
def setRuntimeFields (swap : Nat) (sync : Int) (flags : Nat) (rt : Runtime) (p : PRec) : PRec :=
  { p with SwapChainAddress := swap, SyncInterval := sync, PresentFlags := flags, Runtime := rt }

/-- Apply `f` to the record stored under identity `rid`. -/
def EState.updateRec (rid : Nat) (f : PRec → PRec) (s : EState) : EState :=
  { s with records := fun j => if j = rid then (s.records j).map f else s.records j }

/-- Modelled from the spec: evict record `rp` as lost — remove its
bindings from both indexes, drop it from the record store, emit it on the
lost output queue (`RemoveLostPresent`). -/
def EState.evictLost (rp : Nat) (s : EState) : EState :=
  { mPresentByThreadId := dropRec rp s.mPresentByThreadId,
    mPresentsBySubmitSequence := dropRec rp s.mPresentsBySubmitSequence,
    records := fun j => if j = rp then none else s.records j,
    nextId := s.nextId,
    lostOut := s.lostOut ++ [rp] }

/-- Modelled from the spec (§4.3): one handler step.

* runtime present begin: `FindOrCreate` by thread — an existing record on
  the thread gets its runtime-supplied fields set; otherwise a fresh
  record is created and indexed by thread id;
* runtime present end: sets `TimeTaken = qpc_now − qpc_start` and removes
  the record from the thread index (orphan if the thread has none);
* queue-submit: records the submit sequence on the thread's record and
  indexes it by submit sequence, evicting a different prior holder as
  lost (orphan if the thread has none);
* MMIOFlip / VSyncDPC: by submit sequence, set the ready / screen time
  (orphan if the sequence is unbound). -/
def stepE (e : Ev) (s : EState) : EState :=
  match e with
  | .presentStart tid pid qpc swap sync flags rt =>
      match lookupK tid s.mPresentByThreadId with
      | some rid => s.updateRec rid (setRuntimeFields swap sync flags rt)
      | none =>
          let rid := s.nextId
          { s with
            mPresentByThreadId := (tid, rid) :: s.mPresentByThreadId,
            records := fun j => if j = rid then some (newPRec qpc pid tid swap sync flags rt)
                                else s.records j,
            nextId := rid + 1 }
  | .presentStop tid qpc =>
      match lookupK tid s.mPresentByThreadId with
      | some rid =>
          let t := s.updateRec rid (fun p => { p with TimeTaken := qpc - p.QpcTime })
          { t with mPresentByThreadId :=
              t.mPresentByThreadId.filter (fun b => decide (b.1 ≠ tid)) }
      | none => s
  | .queueSubmit tid seq =>
      match lookupK tid s.mPresentByThreadId with
      | some rid =>
          let t := s.updateRec rid (fun p => { p with QueueSubmitSequence := seq })
          match lookupK seq s.mPresentsBySubmitSequence with
          | some rp =>
              if rp = rid then t
              else
                let u := t.evictLost rp
                { u with mPresentsBySubmitSequence := (seq, rid) :: u.mPresentsBySubmitSequence }
          | none => { t with mPresentsBySubmitSequence := (seq, rid) :: t.mPresentsBySubmitSequence }
      | none => s
  | .mmioFlip seq qpc =>
      match lookupK seq s.mPresentsBySubmitSequence with
      | some rid => s.updateRec rid (fun p => { p with ReadyTime := qpc })
      | none => s
  | .vsyncDPC seq qpc =>
      match lookupK seq s.mPresentsBySubmitSequence with
      | some rid => s.updateRec rid (fun p => { p with ScreenTime := qpc })
      | none => s

/-- Whether the key-to-record binding the event would establish already
holds in the state (the premise under which handlers must be
idempotent).  A runtime present end establishes no binding — it removes
one. -/
def bindingMatches (e : Ev) (s : EState) : Bool :=
  match e with
  | .presentStart tid _ _ swap sync flags rt =>
      match lookupK tid s.mPresentByThreadId with
      | some rid =>
          match s.records rid with
          | some p =>
              decide (p.SwapChainAddress = swap) && decide (p.SyncInterval = sync) &&
              decide (p.PresentFlags = flags) && decide (p.Runtime = rt)
          | none => false
      | none => false
  | .presentStop _ _ => false
  | .queueSubmit tid seq =>
      match lookupK tid s.mPresentByThreadId with
      | some rid =>
          decide (lookupK seq s.mPresentsBySubmitSequence = some rid) &&
          (match s.records rid with
           | some p => decide (p.QueueSubmitSequence = seq)
           | none => false)
      | none => false
  | .mmioFlip seq qpc =>
      match lookupK seq s.mPresentsBySubmitSequence with
      | some rid =>
          match s.records rid with
          | some p => decide (p.ReadyTime = qpc)
          | none => false
      | none => false
  | .vsyncDPC seq qpc =>
      match lookupK seq s.mPresentsBySubmitSequence with
      | some rid =>
          match s.records rid with
          | some p => decide (p.ScreenTime = qpc)
          | none => false
      | none => false

/-- Whether the event's correlation key resolves to no live record — an
orphan event (§7 error kind 1).  A runtime present begin is never an
orphan: it creates the record. -/
def orphanEvent (e : Ev) (s : EState) : Bool :=
  match e with
  | .presentStart _ _ _ _ _ _ _ => false
  | .presentStop tid _ => decide (lookupK tid s.mPresentByThreadId = none)
  | .queueSubmit tid _ => decide (lookupK tid s.mPresentByThreadId = none)
  | .mmioFlip seq _ => decide (lookupK seq s.mPresentsBySubmitSequence = none)
  | .vsyncDPC seq _ => decide (lookupK seq s.mPresentsBySubmitSequence = none)

/-- A fatal engine error.  The spec's error model (§7) has no fatal
errors; the type records what event processing would return if one
existed. -/
inductive EngineFatal
  | fatal
deriving DecidableEq, Repr

/-- Event processing as a fallible step: `.error` would mean the engine
terminated on the event.  Modelled from the spec (§7): every error kind
is handled without terminating, so every event yields `.ok`. -/
def stepChecked (e : Ev) (s : EState) : Except EngineFatal EState :=
  .ok (stepE e s)

/-- Process a whole event stream, stopping at the first fatal error (none
ever occurs). -/
def runChecked : List Ev → EState → Except EngineFatal EState
  | [], s => .ok s
  | e :: es, s =>
      match stepChecked e s with
      | .ok s' => runChecked es s'
      | .error err => .error err

/-- The empty handler-engine state. -/
def initE : EState :=
  { mPresentByThreadId := [], mPresentsBySubmitSequence := [],
    records := fun _ => none, nextId := 0, lostOut := [] }

end PMEngine

/-! ## Sample values (used to instantiate theorems at concrete inputs) -/

/-- A concrete completed present record. -/
def samplePresentEvent : PresentEvent :=
  { QpcTime := 100, ProcessId := 10, ThreadId := 1, TimeTaken := 5,
    ReadyTime := 200, ScreenTime := 300, SwapChainAddress := 10,
    SyncInterval := 1, PresentFlags := 0, QueueSubmitSequence := 7,
    Runtime := Runtime.DXGI, PresentMode := PresentMode.Hardware_Legacy_Flip,
    FinalState := PresentResult.Presented, IsCompleted := true, IsLost := false }

/-- A concrete process-start event. -/
def sampleProcessEvent : ProcessEvent :=
  { ImageFileName := "game.exe", QpcTime := 50, ProcessId := 10, IsStartEvent := true }

/-- A concrete consumer state with one queued completed present, one
queued lost present and one queued process event. -/
def sampleConsumer : PMTraceConsumer :=
  { mCompletePresentEvents := [samplePresentEvent],
    mLostPresentEvents := [{ samplePresentEvent with IsLost := true, IsCompleted := false }],
    mProcessEvents := [sampleProcessEvent],
    mDeferredCompletions := [],
    mAllPresentsNextIndex := 1,
    mAllPresents := [some 0, none],
    mPresentByThreadId := [(1, 0)],
    mPresentsByProcess := [(10, [(100, 0)])],
    mPresentsBySubmitSequence := [(7, 0)],
    mWin32KPresentHistoryTokens := [],
    mDxgKrnlPresentHistoryTokens := [],
    mBltsByDxgContext := [],
    mLastWindowPresent := [],
    mPresentsWaitingForDWM := [],
    mPresentsByLegacyBlitToken := [],
    mTrackedProcessFilter := [10] }

/-! # Theorems -/

/-! ## Event dispatch and provider enabling (C10, C5) -/

/-- C10: the dispatcher routes Win7 graphics-kernel present-history
events to `HandleWin7DxgkPresentHistory`, and `PresentHistory_Start` is
in the DxgKrnl provider's event filter, regardless of display tracking;
whereas Win32k, DWM (both GUIDs), and the other Win7 DxgKrnl providers
(blit, flip, queue packet, vsync, mmio-flip) are dispatched only when
display tracking is enabled. -/
theorem c10_win7_presenthistory_always_dispatched :
    (∀ w : Bool,
      EventRecordCallback false w Provider.Win7PresentHistory =
        Handler.HandleWin7DxgkPresentHistory ∧
      EventRecordCallback true w Provider.Win7PresentHistory =
        Handler.HandleWin7DxgkPresentHistory) ∧
    DxgkEventId.PresentHistory_Start ∈ enabledDxgkEventIds false ∧
    DxgkEventId.PresentHistory_Start ∈ enabledDxgkEventIds true ∧
    (∀ w : Bool,
      EventRecordCallback false w Provider.Win32k = Handler.Ignored ∧
      EventRecordCallback false w Provider.DwmCore = Handler.Ignored ∧
      EventRecordCallback false w Provider.DwmCoreWin7 = Handler.Ignored ∧
      EventRecordCallback false w Provider.Win7Blt = Handler.Ignored ∧
      EventRecordCallback false w Provider.Win7Flip = Handler.Ignored ∧
      EventRecordCallback false w Provider.Win7QueuePacket = Handler.Ignored ∧
      EventRecordCallback false w Provider.Win7VSyncDPC = Handler.Ignored ∧
      EventRecordCallback false w Provider.Win7MMIOFlip = Handler.Ignored) ∧
    (∀ w : Bool,
      EventRecordCallback true w Provider.Win32k = Handler.HandleWin32kEvent ∧
      EventRecordCallback true w Provider.DwmCore = Handler.HandleDWMEvent ∧
      EventRecordCallback true w Provider.DwmCoreWin7 = Handler.HandleDWMEvent ∧
      EventRecordCallback true w Provider.Win7Blt = Handler.HandleWin7DxgkBlt ∧
      EventRecordCallback true w Provider.Win7Flip = Handler.HandleWin7DxgkFlip ∧
      EventRecordCallback true w Provider.Win7QueuePacket = Handler.HandleWin7DxgkQueuePacket ∧
      EventRecordCallback true w Provider.Win7VSyncDPC = Handler.HandleWin7DxgkVSyncDPC ∧
      EventRecordCallback true w Provider.Win7MMIOFlip = Handler.HandleWin7DxgkMMIOFlip) := by
  decide

/-- C5 counterexample: the claim says graphics-kernel queue-submit and
queue-complete events are still tracked when `track_display` is
disabled, but `EnableProviders` puts `QueuePacket_Start` and
`QueuePacket_Stop` in the DxgKrnl event filter only inside the
`if (pmConsumer->mTrackDisplay)` block: with display tracking off,
neither is enabled. -/
theorem c5_counterexample :
    DxgkEventId.QueuePacket_Start ∉ enabledDxgkEventIds false ∧
    DxgkEventId.QueuePacket_Stop ∉ enabledDxgkEventIds false := by
  decide

/-- C5 (amended): when `track_display` is disabled, the Win32k and DWM
providers are not enabled and their events are not dispatched, and of
the graphics-kernel events only `PresentHistory_Start` remains enabled —
the flip-path events AND the queue-submit/queue-complete events are all
disabled alike — while the runtime present begin/end events (DXGI and
D3D9) remain enabled; when it is enabled, the windowing and compositor
providers and the flip-path and queue-packet event filters are
additionally active. -/
theorem c5_track_display_gating :
    (∀ w : Bool,
      EventRecordCallback false w Provider.Win32k = Handler.Ignored ∧
      EventRecordCallback false w Provider.DwmCore = Handler.Ignored ∧
      EventRecordCallback false w Provider.DwmCoreWin7 = Handler.Ignored) ∧
    win32kProviderEnabled false = false ∧
    dwmProviderEnabled false = false ∧
    enabledDxgkEventIds false = [DxgkEventId.PresentHistory_Start] ∧
    "Present_Start" ∈ enabledDxgiEventIds ∧
    "Present_Stop" ∈ enabledDxgiEventIds ∧
    "Present_Start" ∈ enabledD3D9EventIds ∧
    "Present_Stop" ∈ enabledD3D9EventIds ∧
    win32kProviderEnabled true = true ∧
    dwmProviderEnabled true = true ∧
    (∀ w : Bool,
      EventRecordCallback true w Provider.Win32k = Handler.HandleWin32kEvent ∧
      EventRecordCallback true w Provider.DwmCore = Handler.HandleDWMEvent ∧
      EventRecordCallback true w Provider.DwmCoreWin7 = Handler.HandleDWMEvent) ∧
    DxgkEventId.Flip_Info ∈ enabledDxgkEventIds true ∧
    DxgkEventId.MMIOFlip_Info ∈ enabledDxgkEventIds true ∧
    DxgkEventId.VSyncDPC_Info ∈ enabledDxgkEventIds true ∧
    DxgkEventId.QueuePacket_Start ∈ enabledDxgkEventIds true ∧
    DxgkEventId.QueuePacket_Stop ∈ enabledDxgkEventIds true := by
  decide

/-! ## Public dequeue API (C6, C9) -/

/-- C6: each of the three dequeue operations acquires exactly its own
queue's mutex and no other, and has swap-out-and-return semantics: called
with an empty output vector, it returns precisely the items queued since
the previous such call and leaves the internal queue empty. -/
theorem c6_dequeue_single_lock_swap (s : PMTraceConsumer)
    (outP : List PresentEvent) (outPr : List ProcessEvent)
    (hP : outP = []) (hPr : outPr = []) :
    (DequeuePresentEvents s outP).2.2 = [MutexId.mPresentEventMutex] ∧
    (DequeueLostPresentEvents s outP).2.2 = [MutexId.mLostPresentEventMutex] ∧
    (DequeueProcessEvents s outPr).2.2 = [MutexId.mProcessEventMutex] ∧
    (DequeuePresentEvents s outP).1 = s.mCompletePresentEvents ∧
    (DequeuePresentEvents s outP).2.1.mCompletePresentEvents = [] ∧
    (DequeueLostPresentEvents s outP).1 = s.mLostPresentEvents ∧
    (DequeueLostPresentEvents s outP).2.1.mLostPresentEvents = [] ∧
    (DequeueProcessEvents s outPr).1 = s.mProcessEvents ∧
    (DequeueProcessEvents s outPr).2.1.mProcessEvents = [] := by
  subst hP
  subst hPr
  exact ⟨rfl, rfl, rfl, rfl, rfl, rfl, rfl, rfl, rfl⟩

/-- C6 witness: the dequeue theorem applied to a concrete consumer state
with empty caller vectors. -/
theorem c6_dequeue_single_lock_swap_witness :
    (([] : List PresentEvent) = []) ∧ (([] : List ProcessEvent) = []) ∧
    ((DequeuePresentEvents sampleConsumer []).2.2 = [MutexId.mPresentEventMutex] ∧
     (DequeueLostPresentEvents sampleConsumer []).2.2 = [MutexId.mLostPresentEventMutex] ∧
     (DequeueProcessEvents sampleConsumer []).2.2 = [MutexId.mProcessEventMutex] ∧
     (DequeuePresentEvents sampleConsumer []).1 = sampleConsumer.mCompletePresentEvents ∧
     (DequeuePresentEvents sampleConsumer []).2.1.mCompletePresentEvents = [] ∧
     (DequeueLostPresentEvents sampleConsumer []).1 = sampleConsumer.mLostPresentEvents ∧
     (DequeueLostPresentEvents sampleConsumer []).2.1.mLostPresentEvents = [] ∧
     (DequeueProcessEvents sampleConsumer []).1 = sampleConsumer.mProcessEvents ∧
     (DequeueProcessEvents sampleConsumer []).2.1.mProcessEvents = []) :=
  ⟨rfl, rfl, c6_dequeue_single_lock_swap sampleConsumer [] [] rfl rfl⟩

/-- C9: each dequeue operation exchanges contents with the caller's
vector and touches nothing else — the returned vector holds exactly the
internal queue's prior contents, the new consumer state is the old one
with only that queue replaced by the caller's prior contents (so the
other queues and every tracking structure are unchanged). -/
theorem c9_dequeue_exchange_frame (s : PMTraceConsumer)
    (outP outL : List PresentEvent) (outPr : List ProcessEvent) :
    (DequeuePresentEvents s outP).1 = s.mCompletePresentEvents ∧
    (DequeuePresentEvents s outP).2.1 = { s with mCompletePresentEvents := outP } ∧
    (DequeuePresentEvents s outP).2.1.mLostPresentEvents = s.mLostPresentEvents ∧
    (DequeuePresentEvents s outP).2.1.mProcessEvents = s.mProcessEvents ∧
    (DequeuePresentEvents s outP).2.1.mPresentByThreadId = s.mPresentByThreadId ∧
    (DequeuePresentEvents s outP).2.1.mPresentsByProcess = s.mPresentsByProcess ∧
    (DequeuePresentEvents s outP).2.1.mPresentsBySubmitSequence = s.mPresentsBySubmitSequence ∧
    (DequeuePresentEvents s outP).2.1.mAllPresents = s.mAllPresents ∧
    (DequeueLostPresentEvents s outL).1 = s.mLostPresentEvents ∧
    (DequeueLostPresentEvents s outL).2.1 = { s with mLostPresentEvents := outL } ∧
    (DequeueLostPresentEvents s outL).2.1.mCompletePresentEvents = s.mCompletePresentEvents ∧
    (DequeueLostPresentEvents s outL).2.1.mProcessEvents = s.mProcessEvents ∧
    (DequeueProcessEvents s outPr).1 = s.mProcessEvents ∧
    (DequeueProcessEvents s outPr).2.1 = { s with mProcessEvents := outPr } ∧
    (DequeueProcessEvents s outPr).2.1.mCompletePresentEvents = s.mCompletePresentEvents ∧
    (DequeueProcessEvents s outPr).2.1.mLostPresentEvents = s.mLostPresentEvents := by
  exact ⟨rfl, rfl, rfl, rfl, rfl, rfl, rfl, rfl, rfl, rfl, rfl, rfl, rfl, rfl, rfl, rfl⟩

/-! ## Ring buffer (C3) -/

namespace PMRing

/-- The live-record count never exceeds the ring capacity: live records
occupy ring slots. -/
theorem liveCount_le_capacity (N : Nat) (s : RState) : liveCount N s ≤ N := by
  have h := List.length_filter_le (fun j => (s.mAllPresents j).isSome) (List.range N)
  simpa [liveCount] using h

/-- Ring-insertion invariant: starting from a state that has processed
`k` insertions from empty (wrapped next index, the first `min k N` slots
occupied, `k - N` records lost), running `rs` further insertions yields
`(k + rs.length) - N` lost records and `min (k + rs.length) N` occupied
slots. -/
theorem runRing_lost_spec (N : Nat) (hN : 0 < N) (rs : List Nat) :
    ∀ (k : Nat) (s : RState),
      s.mAllPresentsNextIndex = k % N →
      (∀ j, (s.mAllPresents j).isSome = true ↔ j < min k N) →
      s.lostOut.length = k - N →
      (runRing N rs s).lostOut.length = (k + rs.length) - N ∧
      (∀ j, ((runRing N rs s).mAllPresents j).isSome = true ↔ j < min (k + rs.length) N) := by
  induction rs with
  | nil =>
    intro k s h1 h2 h3
    constructor
    · simpa [runRing] using h3
    · simpa only [runRing, List.foldl_nil, List.length_nil, Nat.add_zero] using h2
  | cons r rs ih =>
    intro k s h1 h2 h3
    have hrun : runRing N (r :: rs) s = runRing N rs (ringInsert N r s) := rfl
    rw [hrun]
    have hk1 : k + (r :: rs).length = (k + 1) + rs.length := by
      simp [List.length_cons]
      omega
    rw [hk1]
    rcases Nat.lt_or_ge k N with hkN | hkN
    · -- slot k is free: no record is lost
      have hmod : k % N = k := Nat.mod_eq_of_lt hkN
      have hslot : s.mAllPresents (s.mAllPresentsNextIndex) = none := by
        rw [h1, hmod]
        have := h2 k
        rcases hx : s.mAllPresents k with _ | v
        · rfl
        · exfalso
          have : k < min k N := (h2 k).mp (by simp [hx])
          omega
      apply ih (k + 1) (ringInsert N r s)
      · simp only [ringInsert, hslot]
        rw [h1]
        exact Nat.mod_add_mod k N 1
      · intro j
        simp only [ringInsert, hslot]
        rw [h1, hmod]
        by_cases hj : j = k
        · subst hj
          simp
          omega
        · simp [hj]
          rw [h2 j]
          omega
      · simp only [ringInsert, hslot]
        rw [h3]
        omega
    · -- slot k % N is occupied: the prior occupant is lost
      have hiN : k % N < N := Nat.mod_lt _ hN
      have hocc : (s.mAllPresents (k % N)).isSome = true := by
        rw [h2]
        omega
      rcases hx : s.mAllPresents (k % N) with _ | old
      · rw [hx] at hocc
        simp at hocc
      · apply ih (k + 1) (ringInsert N r s)
        · simp only [ringInsert, h1, hx]
          exact Nat.mod_add_mod k N 1
        · intro j
          simp only [ringInsert, h1, hx]
          by_cases hj : j = k % N
          · subst hj
            simp
            omega
          · simp [hj]
            rw [h2 j]
            omega
        · simp only [ringInsert, h1, hx]
          simp [h3]
          omega

/-- C3: the ring buffer `mAllPresents` has fixed capacity `N`; the number
of live records never exceeds `N`, and after inserting `M > N` presents
with no completions, exactly `M − N` records appear on the lost output
queue. -/
theorem c3_ring_capacity_bound (N : Nat) (rs : List Nat) (hN : 0 < N)
    (_hM : N < rs.length) :
    liveCount N (runRing N rs initRing) ≤ N ∧
    (runRing N rs initRing).lostOut.length = rs.length - N := by
  refine ⟨liveCount_le_capacity N _, ?_⟩
  have h := (runRing_lost_spec N hN rs 0 initRing (by simp [initRing])
    (by intro j; simp [initRing]) (by simp [initRing])).1
  simpa using h

/-- C3 witness: capacity 2, five insertions, exactly three lost
records. -/
theorem c3_ring_capacity_bound_witness :
    0 < 2 ∧ 2 < [20, 21, 22, 23, 24].length ∧
    (liveCount 2 (runRing 2 [20, 21, 22, 23, 24] initRing) ≤ 2 ∧
     (runRing 2 [20, 21, 22, 23, 24] initRing).lostOut.length = [20, 21, 22, 23, 24].length - 2) :=
  ⟨by decide, by decide, c3_ring_capacity_bound 2 [20, 21, 22, 23, 24] (by decide) (by decide)⟩

end PMRing

/-! ## Deferred completions (C4) -/

namespace PMDefer

/-- The completed output queue only ever grows. -/
theorem mem_completedOut_runD (ops : List DOp) :
    ∀ (s : DState) (x : Nat), x ∈ s.completedOut → x ∈ (runD ops s).completedOut := by
  induction ops with
  | nil =>
    intro s x hx
    simpa [runD] using hx
  | cons op rest ih =>
    intro s x hx
    have hstep : x ∈ (stepD op s).completedOut := by
      cases op with
      | deferCompletion pidd rd nd => simpa [stepD] using hx
      | presentStop pidd =>
        simp only [stepD, List.mem_append]
        exact Or.inl hx
    exact ih (stepD op s) x hstep

/-- Exact deferred-emission timing: if record `r` sits in process `pid`'s
deferred list with remaining-stops count `n ≥ 1` (and nowhere else, and
is not yet emitted, and the remaining operations never re-defer it), then
after running the remaining operations `r` has been emitted on the
completed output queue iff at least `n` present-stops were observed on
`pid`. -/
theorem runD_deferred_exact (ops : List DOp) :
    ∀ (pid r n : Nat) (s : DState),
      1 ≤ n →
      (r, n) ∈ s.mDeferredCompletions pid →
      (∀ pid' e, e ∈ s.mDeferredCompletions pid' → e.1 = r → pid' = pid ∧ e = (r, n)) →
      r ∉ s.completedOut →
      (∀ pid' n', DOp.deferCompletion pid' r n' ∉ ops) →
      (r ∈ (runD ops s).completedOut ↔ n ≤ countStops pid ops) := by
  induction ops with
  | nil =>
    intro pid r n s hn hmem huniq hnot hfresh
    simp only [runD, List.foldl_nil, countStops, List.countP_nil]
    constructor
    · intro h
      exact absurd h hnot
    · intro h
      exact absurd h (by omega)
  | cons op rest ih =>
    intro pid r n s hn hmem huniq hnot hfresh
    have hfresh' : ∀ pid' n', DOp.deferCompletion pid' r n' ∉ rest := by
      intro pid' n' hmem'
      exact hfresh pid' n' (List.mem_cons_of_mem _ hmem')
    have hrun : runD (op :: rest) s = runD rest (stepD op s) := rfl
    rw [hrun]
    cases op with
    | deferCompletion pidd rd nd =>
      have hrd : rd ≠ r := by
        intro h
        subst h
        exact hfresh pidd nd (List.mem_cons_self _ _)
      have hcount : countStops pid (DOp.deferCompletion pidd rd nd :: rest) =
          countStops pid rest := by
        simp [countStops, List.countP_cons]
      rw [hcount]
      apply ih pid r n _ hn
      · by_cases hp : pid = pidd
        · simp only [stepD, if_pos hp, List.mem_append]
          exact Or.inl hmem
        · simpa only [stepD, if_neg hp] using hmem
      · intro pid' e he hkey
        by_cases hp' : pid' = pidd
        · rw [show (stepD (DOp.deferCompletion pidd rd nd) s).mDeferredCompletions pid'
              = s.mDeferredCompletions pid' ++ [(rd, nd)] by simp [stepD, hp']] at he
          rcases List.mem_append.mp he with he | he
          · exact huniq pid' e he hkey
          · exfalso
            have : e = (rd, nd) := by simpa using he
            rw [this] at hkey
            exact hrd hkey
        · rw [show (stepD (DOp.deferCompletion pidd rd nd) s).mDeferredCompletions pid'
              = s.mDeferredCompletions pid' by simp [stepD, hp']] at he
          exact huniq pid' e he hkey
      · simpa only [stepD] using hnot
      · exact hfresh'
    | presentStop pidd =>
      by_cases hp : pidd = pid
      · subst hp
        have hcount : countStops pidd (DOp.presentStop pidd :: rest) =
            countStops pidd rest + 1 := by
          simp [countStops, List.countP_cons]
        rw [hcount]
        have hdef : (stepD (DOp.presentStop pidd) s).mDeferredCompletions pidd =
            ((s.mDeferredCompletions pidd).map (fun e => (e.1, e.2 - 1))).filter
              (fun e => decide (e.2 ≠ 0)) := by
          simp [stepD]
        have hcomp : (stepD (DOp.presentStop pidd) s).completedOut =
            s.completedOut ++
              (((s.mDeferredCompletions pidd).map (fun e => (e.1, e.2 - 1))).filter
                (fun e => decide (e.2 = 0))).map Prod.fst := rfl
        rcases Nat.lt_or_ge 1 n with hn2 | hn1
        · -- n ≥ 2: the record stays deferred with count n − 1
          have hmem' : (r, n - 1) ∈ (stepD (DOp.presentStop pidd) s).mDeferredCompletions pidd := by
            rw [hdef]
            refine List.mem_filter.mpr ⟨?_, ?_⟩
            · exact List.mem_map.mpr ⟨(r, n), hmem, rfl⟩
            · simp only [decide_eq_true_eq]
              omega
          have huniq' : ∀ pid' e,
              e ∈ (stepD (DOp.presentStop pidd) s).mDeferredCompletions pid' →
              e.1 = r → pid' = pidd ∧ e = (r, n - 1) := by
            intro pid' e he hkey
            by_cases hp' : pid' = pidd
            · subst hp'
              rw [hdef] at he
              obtain ⟨hel, -⟩ := List.mem_filter.mp he
              obtain ⟨e₀, he₀, heq⟩ := List.mem_map.mp hel
              have hk₀ : e₀.1 = r := by
                rw [← heq] at hkey
                exact hkey
              obtain ⟨-, he₀eq⟩ := huniq pid' e₀ he₀ hk₀
              rw [he₀eq] at heq
              rw [← heq]
              exact ⟨rfl, rfl⟩
            · rw [show (stepD (DOp.presentStop pidd) s).mDeferredCompletions pid'
                  = s.mDeferredCompletions pid' by simp [stepD, hp']] at he
              obtain ⟨hpid, -⟩ := huniq pid' e he hkey
              exact absurd hpid hp'
          have hnot' : r ∉ (stepD (DOp.presentStop pidd) s).completedOut := by
            rw [hcomp]
            intro hr
            rcases List.mem_append.mp hr with hr | hr
            · exact hnot hr
            · obtain ⟨e, hef, hfst⟩ := List.mem_map.mp hr
              obtain ⟨hel, hz⟩ := List.mem_filter.mp hef
              obtain ⟨e₀, he₀, heq⟩ := List.mem_map.mp hel
              have hk₀ : e₀.1 = r := by
                rw [← heq] at hfst
                exact hfst
              obtain ⟨-, he₀eq⟩ := huniq pidd e₀ he₀ hk₀
              rw [he₀eq] at heq
              rw [← heq] at hz
              simp only [decide_eq_true_eq] at hz
              omega
          have IH := ih pidd r (n - 1) (stepD (DOp.presentStop pidd) s)
            (by omega) hmem' huniq' hnot' hfresh'
          rw [IH]
          omega
        · -- n = 1: the record is emitted by this very present-stop
          have hn' : n = 1 := by omega
          subst hn'
          have hr : r ∈ (stepD (DOp.presentStop pidd) s).completedOut := by
            rw [hcomp]
            refine List.mem_append.mpr (Or.inr ?_)
            refine List.mem_map.mpr ⟨(r, 0), ?_, rfl⟩
            refine List.mem_filter.mpr ⟨?_, by simp⟩
            exact List.mem_map.mpr ⟨(r, 1), hmem, rfl⟩
          constructor
          · intro _
            omega
          · intro _
            exact mem_completedOut_runD rest _ r hr
      · -- a present-stop on a different process
        have hp2 : ¬ (pid = pidd) := fun h => hp h.symm
        have hcount : countStops pid (DOp.presentStop pidd :: rest) =
            countStops pid rest := by
          simp [countStops, List.countP_cons, hp]
        rw [hcount]
        have hdefd : (stepD (DOp.presentStop pidd) s).mDeferredCompletions pidd =
            ((s.mDeferredCompletions pidd).map (fun e => (e.1, e.2 - 1))).filter
              (fun e => decide (e.2 ≠ 0)) := by
          simp [stepD]
        apply ih pid r n _ hn
        · rw [show (stepD (DOp.presentStop pidd) s).mDeferredCompletions pid
              = s.mDeferredCompletions pid by simp [stepD, hp2]]
          exact hmem
        · intro pid' e he hkey
          by_cases hp' : pid' = pidd
          · subst hp'
            rw [hdefd] at he
            obtain ⟨hel, -⟩ := List.mem_filter.mp he
            obtain ⟨e₀, he₀, heq⟩ := List.mem_map.mp hel
            have hk₀ : e₀.1 = r := by
              rw [← heq] at hkey
              exact hkey
            obtain ⟨hpid, -⟩ := huniq pid' e₀ he₀ hk₀
            exact absurd hpid hp
          · rw [show (stepD (DOp.presentStop pidd) s).mDeferredCompletions pid'
                = s.mDeferredCompletions pid' by simp [stepD, hp']] at he
            exact huniq pid' e he hkey
        · intro hr
          rcases List.mem_append.mp hr with hr | hr
          · exact hnot hr
          · obtain ⟨e, hef, hfst⟩ := List.mem_map.mp hr
            obtain ⟨hel, -⟩ := List.mem_filter.mp hef
            obtain ⟨e₀, he₀, heq⟩ := List.mem_map.mp hel
            have hk₀ : e₀.1 = r := by
              rw [← heq] at hfst
              exact hfst
            obtain ⟨hpid, -⟩ := huniq pidd e₀ he₀ hk₀
            exact absurd hpid hp
        · exact hfresh'

/-- C4: a record deferred into its process's `DeferredCompletions` list
with remaining-stops count `n ≥ 1` (uniquely, not yet emitted, never
re-deferred) is emitted on the completed output queue exactly when `n`
runtime present-stops have been observed on that process — and never
before. -/
theorem c4_deferred_completion_exact (pid r n : Nat) (s : DState) (ops : List DOp)
    (hn : 1 ≤ n)
    (hmem : (r, n) ∈ s.mDeferredCompletions pid)
    (huniq : ∀ pid' e, e ∈ s.mDeferredCompletions pid' → e.1 = r → pid' = pid ∧ e = (r, n))
    (hnot : r ∉ s.completedOut)
    (hfresh : ∀ pid' n', DOp.deferCompletion pid' r n' ∉ ops) :
    r ∈ (runD ops s).completedOut ↔ n ≤ countStops pid ops :=
  runD_deferred_exact ops pid r n s hn hmem huniq hnot hfresh

/-- C4 witness: record 5 deferred on process 10 with two remaining stops
is emitted exactly after the second present-stop on process 10. -/
theorem c4_deferred_completion_exact_witness :
    (1 ≤ 2) ∧
    ((5, 2) ∈ sampleDState.mDeferredCompletions 10) ∧
    (∀ pid' e, e ∈ sampleDState.mDeferredCompletions pid' → e.1 = 5 → pid' = 10 ∧ e = (5, 2)) ∧
    ((5 : Nat) ∉ sampleDState.completedOut) ∧
    (∀ pid' n', DOp.deferCompletion pid' 5 n' ∉ [DOp.presentStop 10, DOp.presentStop 10]) ∧
    (5 ∈ (runD [DOp.presentStop 10, DOp.presentStop 10] sampleDState).completedOut ↔
      2 ≤ countStops 10 [DOp.presentStop 10, DOp.presentStop 10]) := by
  have huniq : ∀ pid' e, e ∈ sampleDState.mDeferredCompletions pid' → e.1 = 5 →
      pid' = 10 ∧ e = (5, 2) := by
    intro pid' e he hkey
    by_cases hp : pid' = 10
    · subst hp
      have : e = (5, 2) := by simpa [sampleDState] using he
      exact ⟨rfl, this⟩
    · exfalso
      simp [sampleDState, hp] at he
  have hfresh : ∀ pid' n', DOp.deferCompletion pid' 5 n' ∉
      [DOp.presentStop 10, DOp.presentStop 10] := by
    intro pid' n'
    simp
  exact ⟨by decide, by simp [sampleDState], huniq, by simp [sampleDState], hfresh,
    c4_deferred_completion_exact 10 5 2 sampleDState [DOp.presentStop 10, DOp.presentStop 10]
      (by decide) (by simp [sampleDState]) huniq (by simp [sampleDState]) hfresh⟩

end PMDefer

/-! ## Correlation-key indexes (C2) -/

/-- Filtering an index preserves key distinctness. -/
theorem nodupKeys_filter {κ : Type} (p : κ × Nat → Bool) (idx : Index κ)
    (h : NodupKeys idx) : NodupKeys (idx.filter p) :=
  h.sublist ((List.filter_sublist idx).map Prod.fst)

/-- Purging a record's bindings preserves key distinctness. -/
theorem nodupKeys_dropRec {κ : Type} (r : Nat) (idx : Index κ)
    (h : NodupKeys idx) : NodupKeys (dropRec r idx) :=
  nodupKeys_filter _ idx h

/-- A failed lookup means no binding carries the key. -/
theorem lookupK_eq_none {κ : Type} [DecidableEq κ] (k : κ) (idx : Index κ)
    (h : lookupK k idx = none) : ∀ p ∈ idx, p.1 ≠ k := by
  induction idx with
  | nil => intro p hp; exact absurd hp (List.not_mem_nil p)
  | cons q rest ih =>
    intro p hp
    rcases q with ⟨k', v⟩
    by_cases hk : k' = k
    · exfalso
      simp [lookupK, hk] at h
    · rcases List.mem_cons.mp hp with rfl | hp'
      · exact hk
      · have h' : lookupK k rest = none := by
          simpa [lookupK, hk] using h
        exact ih h' p hp'

/-- With distinct keys, every binding carrying the looked-up key holds
the looked-up record. -/
theorem lookupK_eq_some_unique {κ : Type} [DecidableEq κ] (k : κ) (idx : Index κ) (r : Nat)
    (hnd : NodupKeys idx) (hlk : lookupK k idx = some r) :
    ∀ p ∈ idx, p.1 = k → p.2 = r := by
  induction idx with
  | nil => intro p hp; exact absurd hp (List.not_mem_nil p)
  | cons q rest ih =>
    intro p hp hpk
    rcases q with ⟨k', v⟩
    have hnd' : NodupKeys rest := by
      have := List.nodup_cons.mp hnd
      exact this.2
    have hknotin : k' ∉ rest.map Prod.fst := by
      have := List.nodup_cons.mp hnd
      exact this.1
    by_cases hk : k' = k
    · have hv : v = r := by
        simpa [lookupK, hk] using hlk
      rcases List.mem_cons.mp hp with rfl | hp'
      · exact hv
      · exfalso
        apply hknotin
        rw [hk, ← hpk]
        exact List.mem_map.mpr ⟨p, hp', rfl⟩
    · have hlk' : lookupK k rest = some r := by
        simpa [lookupK, hk] using hlk
      rcases List.mem_cons.mp hp with rfl | hp'
      · exact absurd hpk hk
      · exact ih hnd' hlk' p hp' hpk

/-- Installing a fresh binding over a purged prior holder preserves key
distinctness. -/
theorem nodupKeys_cons_dropRec {κ : Type} [DecidableEq κ] (k : κ) (r rp : Nat)
    (idx : Index κ) (hnd : NodupKeys idx) (hlk : lookupK k idx = some rp) :
    NodupKeys ((k, r) :: dropRec rp idx) := by
  refine List.nodup_cons.mpr ⟨?_, nodupKeys_dropRec rp idx hnd⟩
  intro hmem
  obtain ⟨p, hp, hfst⟩ := List.mem_map.mp hmem
  obtain ⟨hpidx, hpfilter⟩ := List.mem_filter.mp hp
  have : p.2 = rp := lookupK_eq_some_unique k idx rp hnd hlk p hpidx hfst
  simp only [decide_eq_true_eq] at hpfilter
  exact hpfilter this

/-- Installing a binding for an absent key preserves key distinctness. -/
theorem nodupKeys_cons_none {κ : Type} [DecidableEq κ] (k : κ) (r : Nat)
    (idx : Index κ) (hnd : NodupKeys idx) (hlk : lookupK k idx = none) :
    NodupKeys ((k, r) :: idx) := by
  refine List.nodup_cons.mpr ⟨?_, hnd⟩
  intro hmem
  obtain ⟨p, hp, hfst⟩ := List.mem_map.mp hmem
  exact lookupK_eq_none k idx hlk p hp hfst

/-- A purged record is bound nowhere in the filtered index. -/
theorem not_mem_snd_dropRec {κ : Type} (r : Nat) (idx : Index κ) :
    r ∉ (dropRec r idx).map Prod.snd := by
  intro h
  obtain ⟨p, hp, hsnd⟩ := List.mem_map.mp h
  obtain ⟨-, hfilter⟩ := List.mem_filter.mp hp
  simp only [decide_eq_true_eq] at hfilter
  exact hfilter hsnd

/-- Distinct keys give at most one binding per key value. -/
theorem atMostOnePerKey_of_nodupKeys {κ : Type} [DecidableEq κ] (idx : Index κ)
    (h : NodupKeys idx) : atMostOnePerKey idx := by
  intro k
  induction idx with
  | nil => simp
  | cons q rest ih =>
    rcases q with ⟨k', v⟩
    have hnd' : NodupKeys rest := (List.nodup_cons.mp h).2
    have hknotin : k' ∉ rest.map Prod.fst := (List.nodup_cons.mp h).1
    by_cases hk : k' = k
    · have hempty : rest.filter (fun p => decide (p.1 = k)) = [] := by
        refine List.filter_eq_nil_iff.mpr ?_
        intro p hp
        simp only [decide_eq_true_eq]
        intro hpk
        apply hknotin
        rw [hk, ← hpk]
        exact List.mem_map.mpr ⟨p, hp, rfl⟩
      simp [List.filter_cons, hk, hempty]
    · have := ih hnd'
      simpa [List.filter_cons, hk] using this

namespace PMKeys

/-- A record purged from all indexes is bound nowhere. -/
theorem removeRec_not_holdsRec (r : Nat) (s : KState) :
    ¬ (s.removeRec r).holdsRec r := by
  rintro (h | h | h | h | h | h | h) <;> exact not_mem_snd_dropRec r _ h

/-- One key-index step preserves key distinctness in all seven
indexes. -/
theorem NodupAll_stepK (op : KOp) (s : KState) (h : s.NodupAll) :
    (stepK op s).NodupAll := by
  obtain ⟨h1, h2, h3, h4, h5, h6, h7⟩ := h
  cases op with
  | assignThread k r =>
    show (s.assignThread k r).NodupAll
    unfold KState.assignThread
    split
    · next rp hlk =>
      split
      · exact ⟨h1, h2, h3, h4, h5, h6, h7⟩
      · exact ⟨nodupKeys_cons_dropRec k r rp _ h1 hlk, nodupKeys_dropRec rp _ h2,
          nodupKeys_dropRec rp _ h3, nodupKeys_dropRec rp _ h4, nodupKeys_dropRec rp _ h5,
          nodupKeys_dropRec rp _ h6, nodupKeys_dropRec rp _ h7⟩
    · next hlk => exact ⟨nodupKeys_cons_none k r _ h1 hlk, h2, h3, h4, h5, h6, h7⟩
  | assignSubmit k r =>
    show (s.assignSubmit k r).NodupAll
    unfold KState.assignSubmit
    split
    · next rp hlk =>
      split
      · exact ⟨h1, h2, h3, h4, h5, h6, h7⟩
      · exact ⟨nodupKeys_dropRec rp _ h1, nodupKeys_cons_dropRec k r rp _ h2 hlk,
          nodupKeys_dropRec rp _ h3, nodupKeys_dropRec rp _ h4, nodupKeys_dropRec rp _ h5,
          nodupKeys_dropRec rp _ h6, nodupKeys_dropRec rp _ h7⟩
    · next hlk => exact ⟨h1, nodupKeys_cons_none k r _ h2 hlk, h3, h4, h5, h6, h7⟩
  | assignWin32K k r =>
    show (s.assignWin32K k r).NodupAll
    unfold KState.assignWin32K
    split
    · next rp hlk =>
      split
      · exact ⟨h1, h2, h3, h4, h5, h6, h7⟩
      · exact ⟨nodupKeys_dropRec rp _ h1, nodupKeys_dropRec rp _ h2,
          nodupKeys_cons_dropRec k r rp _ h3 hlk, nodupKeys_dropRec rp _ h4,
          nodupKeys_dropRec rp _ h5, nodupKeys_dropRec rp _ h6, nodupKeys_dropRec rp _ h7⟩
    · next hlk => exact ⟨h1, h2, nodupKeys_cons_none k r _ h3 hlk, h4, h5, h6, h7⟩
  | assignDxgKrnlToken k r =>
    show (s.assignDxgKrnlToken k r).NodupAll
    unfold KState.assignDxgKrnlToken
    split
    · next rp hlk =>
      split
      · exact ⟨h1, h2, h3, h4, h5, h6, h7⟩
      · exact ⟨nodupKeys_dropRec rp _ h1, nodupKeys_dropRec rp _ h2,
          nodupKeys_dropRec rp _ h3, nodupKeys_cons_dropRec k r rp _ h4 hlk,
          nodupKeys_dropRec rp _ h5, nodupKeys_dropRec rp _ h6, nodupKeys_dropRec rp _ h7⟩
    · next hlk => exact ⟨h1, h2, h3, nodupKeys_cons_none k r _ h4 hlk, h5, h6, h7⟩
  | assignBltContext k r =>
    show (s.assignBltContext k r).NodupAll
    unfold KState.assignBltContext
    split
    · next rp hlk =>
      split
      · exact ⟨h1, h2, h3, h4, h5, h6, h7⟩
      · exact ⟨nodupKeys_dropRec rp _ h1, nodupKeys_dropRec rp _ h2,
          nodupKeys_dropRec rp _ h3, nodupKeys_dropRec rp _ h4,
          nodupKeys_cons_dropRec k r rp _ h5 hlk, nodupKeys_dropRec rp _ h6,
          nodupKeys_dropRec rp _ h7⟩
    · next hlk => exact ⟨h1, h2, h3, h4, nodupKeys_cons_none k r _ h5 hlk, h6, h7⟩
  | assignLastWindow k r =>
    show (s.assignLastWindow k r).NodupAll
    unfold KState.assignLastWindow
    split
    · next rp hlk =>
      split
      · exact ⟨h1, h2, h3, h4, h5, h6, h7⟩
      · exact ⟨nodupKeys_dropRec rp _ h1, nodupKeys_dropRec rp _ h2,
          nodupKeys_dropRec rp _ h3, nodupKeys_dropRec rp _ h4, nodupKeys_dropRec rp _ h5,
          nodupKeys_cons_dropRec k r rp _ h6 hlk, nodupKeys_dropRec rp _ h7⟩
    · next hlk => exact ⟨h1, h2, h3, h4, h5, nodupKeys_cons_none k r _ h6 hlk, h7⟩
  | assignLegacyBlit k r =>
    show (s.assignLegacyBlit k r).NodupAll
    unfold KState.assignLegacyBlit
    split
    · next rp hlk =>
      split
      · exact ⟨h1, h2, h3, h4, h5, h6, h7⟩
      · exact ⟨nodupKeys_dropRec rp _ h1, nodupKeys_dropRec rp _ h2,
          nodupKeys_dropRec rp _ h3, nodupKeys_dropRec rp _ h4, nodupKeys_dropRec rp _ h5,
          nodupKeys_dropRec rp _ h6, nodupKeys_cons_dropRec k r rp _ h7 hlk⟩
    · next hlk => exact ⟨h1, h2, h3, h4, h5, h6, nodupKeys_cons_none k r _ h7 hlk⟩
  | removeRecord r =>
    exact ⟨nodupKeys_dropRec r _ h1, nodupKeys_dropRec r _ h2, nodupKeys_dropRec r _ h3,
      nodupKeys_dropRec r _ h4, nodupKeys_dropRec r _ h5, nodupKeys_dropRec r _ h6,
      nodupKeys_dropRec r _ h7⟩

/-- Key distinctness is preserved by any operation sequence. -/
theorem NodupAll_runK (ops : List KOp) :
    ∀ s : KState, s.NodupAll → (runK ops s).NodupAll := by
  induction ops with
  | nil => intro s h; simpa [runK] using h
  | cons op rest ih =>
    intro s h
    exact ih (stepK op s) (NodupAll_stepK op s h)

/-- The empty store has distinct keys everywhere. -/
theorem initK_NodupAll : initK.NodupAll := by
  refine ⟨?_, ?_, ?_, ?_, ?_, ?_, ?_⟩ <;> simp [initK, NodupKeys]

/-- C2: at every point during event processing each correlation-key
index (thread id, submit sequence, Win32K composition-token triple,
kernel present-history token, blit context, window handle, legacy blit
token) binds any key value to at most one record; and whenever a handler
assigns a key already bound to a different record, that prior record is
emitted on the lost output queue and evicted from every index. -/
theorem c2_key_uniqueness_and_eviction (ops : List KOp) :
    (atMostOnePerKey (runK ops initK).mPresentByThreadId ∧
     atMostOnePerKey (runK ops initK).mPresentsBySubmitSequence ∧
     atMostOnePerKey (runK ops initK).mWin32KPresentHistoryTokens ∧
     atMostOnePerKey (runK ops initK).mDxgKrnlPresentHistoryTokens ∧
     atMostOnePerKey (runK ops initK).mBltsByDxgContext ∧
     atMostOnePerKey (runK ops initK).mLastWindowPresent ∧
     atMostOnePerKey (runK ops initK).mPresentsByLegacyBlitToken) ∧
    (∀ (s : KState) (k r rp : Nat),
      lookupK k s.mPresentByThreadId = some rp → rp ≠ r →
        (stepK (KOp.assignThread k r) s).lostOut = s.lostOut ++ [rp] ∧
        ¬ (stepK (KOp.assignThread k r) s).holdsRec rp) ∧
    (∀ (s : KState) (k r rp : Nat),
      lookupK k s.mPresentsBySubmitSequence = some rp → rp ≠ r →
        (stepK (KOp.assignSubmit k r) s).lostOut = s.lostOut ++ [rp] ∧
        ¬ (stepK (KOp.assignSubmit k r) s).holdsRec rp) ∧
    (∀ (s : KState) (k : Nat × Nat × Nat) (r rp : Nat),
      lookupK k s.mWin32KPresentHistoryTokens = some rp → rp ≠ r →
        (stepK (KOp.assignWin32K k r) s).lostOut = s.lostOut ++ [rp] ∧
        ¬ (stepK (KOp.assignWin32K k r) s).holdsRec rp) ∧
    (∀ (s : KState) (k r rp : Nat),
      lookupK k s.mDxgKrnlPresentHistoryTokens = some rp → rp ≠ r →
        (stepK (KOp.assignDxgKrnlToken k r) s).lostOut = s.lostOut ++ [rp] ∧
        ¬ (stepK (KOp.assignDxgKrnlToken k r) s).holdsRec rp) ∧
    (∀ (s : KState) (k r rp : Nat),
      lookupK k s.mBltsByDxgContext = some rp → rp ≠ r →
        (stepK (KOp.assignBltContext k r) s).lostOut = s.lostOut ++ [rp] ∧
        ¬ (stepK (KOp.assignBltContext k r) s).holdsRec rp) ∧
    (∀ (s : KState) (k r rp : Nat),
      lookupK k s.mLastWindowPresent = some rp → rp ≠ r →
        (stepK (KOp.assignLastWindow k r) s).lostOut = s.lostOut ++ [rp] ∧
        ¬ (stepK (KOp.assignLastWindow k r) s).holdsRec rp) ∧
    (∀ (s : KState) (k r rp : Nat),
      lookupK k s.mPresentsByLegacyBlitToken = some rp → rp ≠ r →
        (stepK (KOp.assignLegacyBlit k r) s).lostOut = s.lostOut ++ [rp] ∧
        ¬ (stepK (KOp.assignLegacyBlit k r) s).holdsRec rp) := by
  refine ⟨?_, ?_, ?_, ?_, ?_, ?_, ?_, ?_⟩
  · obtain ⟨h1, h2, h3, h4, h5, h6, h7⟩ := NodupAll_runK ops initK initK_NodupAll
    exact ⟨atMostOnePerKey_of_nodupKeys _ h1, atMostOnePerKey_of_nodupKeys _ h2,
      atMostOnePerKey_of_nodupKeys _ h3, atMostOnePerKey_of_nodupKeys _ h4,
      atMostOnePerKey_of_nodupKeys _ h5, atMostOnePerKey_of_nodupKeys _ h6,
      atMostOnePerKey_of_nodupKeys _ h7⟩
  · intro s k r rp hlk hne
    constructor
    · simp only [stepK, KState.assignThread, hlk, if_neg hne, KState.markLost, KState.removeRec]
    · intro hholds
      simp only [stepK, KState.assignThread, hlk, if_neg hne, KState.markLost, KState.removeRec,
        KState.holdsRec] at hholds
      rcases hholds with h | h | h | h | h | h | h
      · rcases List.mem_map.mp h with ⟨p, hp, hsnd⟩
        rcases List.mem_cons.mp hp with rfl | hp'
        · exact hne hsnd.symm
        · exact not_mem_snd_dropRec rp _ (List.mem_map.mpr ⟨p, hp', hsnd⟩)
      all_goals exact not_mem_snd_dropRec rp _ h
  · intro s k r rp hlk hne
    constructor
    · simp only [stepK, KState.assignSubmit, hlk, if_neg hne, KState.markLost, KState.removeRec]
    · intro hholds
      simp only [stepK, KState.assignSubmit, hlk, if_neg hne, KState.markLost, KState.removeRec,
        KState.holdsRec] at hholds
      rcases hholds with h | h | h | h | h | h | h
      case inr.inl =>
        rcases List.mem_map.mp h with ⟨p, hp, hsnd⟩
        rcases List.mem_cons.mp hp with rfl | hp'
        · exact hne hsnd.symm
        · exact not_mem_snd_dropRec rp _ (List.mem_map.mpr ⟨p, hp', hsnd⟩)
      all_goals exact not_mem_snd_dropRec rp _ h
  · intro s k r rp hlk hne
    constructor
    · simp only [stepK, KState.assignWin32K, hlk, if_neg hne, KState.markLost, KState.removeRec]
    · intro hholds
      simp only [stepK, KState.assignWin32K, hlk, if_neg hne, KState.markLost, KState.removeRec,
        KState.holdsRec] at hholds
      rcases hholds with h | h | h | h | h | h | h
      case inr.inr.inl =>
        rcases List.mem_map.mp h with ⟨p, hp, hsnd⟩
        rcases List.mem_cons.mp hp with rfl | hp'
        · exact hne hsnd.symm
        · exact not_mem_snd_dropRec rp _ (List.mem_map.mpr ⟨p, hp', hsnd⟩)
      all_goals exact not_mem_snd_dropRec rp _ h
  · intro s k r rp hlk hne
    constructor
    · simp only [stepK, KState.assignDxgKrnlToken, hlk, if_neg hne, KState.markLost,
        KState.removeRec]
    · intro hholds
      simp only [stepK, KState.assignDxgKrnlToken, hlk, if_neg hne, KState.markLost,
        KState.removeRec, KState.holdsRec] at hholds
      rcases hholds with h | h | h | h | h | h | h
      case inr.inr.inr.inl =>
        rcases List.mem_map.mp h with ⟨p, hp, hsnd⟩
        rcases List.mem_cons.mp hp with rfl | hp'
        · exact hne hsnd.symm
        · exact not_mem_snd_dropRec rp _ (List.mem_map.mpr ⟨p, hp', hsnd⟩)
      all_goals exact not_mem_snd_dropRec rp _ h
  · intro s k r rp hlk hne
    constructor
    · simp only [stepK, KState.assignBltContext, hlk, if_neg hne, KState.markLost,
        KState.removeRec]
    · intro hholds
      simp only [stepK, KState.assignBltContext, hlk, if_neg hne, KState.markLost,
        KState.removeRec, KState.holdsRec] at hholds
      rcases hholds with h | h | h | h | h | h | h
      case inr.inr.inr.inr.inl =>
        rcases List.mem_map.mp h with ⟨p, hp, hsnd⟩
        rcases List.mem_cons.mp hp with rfl | hp'
        · exact hne hsnd.symm
        · exact not_mem_snd_dropRec rp _ (List.mem_map.mpr ⟨p, hp', hsnd⟩)
      all_goals exact not_mem_snd_dropRec rp _ h
  · intro s k r rp hlk hne
    constructor
    · simp only [stepK, KState.assignLastWindow, hlk, if_neg hne, KState.markLost,
        KState.removeRec]
    · intro hholds
      simp only [stepK, KState.assignLastWindow, hlk, if_neg hne, KState.markLost,
        KState.removeRec, KState.holdsRec] at hholds
      rcases hholds with h | h | h | h | h | h | h
      case inr.inr.inr.inr.inr.inl =>
        rcases List.mem_map.mp h with ⟨p, hp, hsnd⟩
        rcases List.mem_cons.mp hp with rfl | hp'
        · exact hne hsnd.symm
        · exact not_mem_snd_dropRec rp _ (List.mem_map.mpr ⟨p, hp', hsnd⟩)
      all_goals exact not_mem_snd_dropRec rp _ h
  · intro s k r rp hlk hne
    constructor
    · simp only [stepK, KState.assignLegacyBlit, hlk, if_neg hne, KState.markLost,
        KState.removeRec]
    · intro hholds
      simp only [stepK, KState.assignLegacyBlit, hlk, if_neg hne, KState.markLost,
        KState.removeRec, KState.holdsRec] at hholds
      rcases hholds with h | h | h | h | h | h | h
      case inr.inr.inr.inr.inr.inr =>
        rcases List.mem_map.mp h with ⟨p, hp, hsnd⟩
        rcases List.mem_cons.mp hp with rfl | hp'
        · exact hne hsnd.symm
        · exact not_mem_snd_dropRec rp _ (List.mem_map.mpr ⟨p, hp', hsnd⟩)
      all_goals exact not_mem_snd_dropRec rp _ h

/-- C2 witness: the theorem instantiated on a concrete operation
sequence, plus the thread-index eviction applied to a concrete store
where key 1 is re-assigned from record 0 to record 1. -/
theorem c2_key_uniqueness_and_eviction_witness :
    (lookupK 1 sampleKState.mPresentByThreadId = some 0) ∧ ((0 : Nat) ≠ 1) ∧
    atMostOnePerKey (runK sampleKOps initK).mPresentByThreadId ∧
    ((stepK (KOp.assignThread 1 1) sampleKState).lostOut = sampleKState.lostOut ++ [0] ∧
     ¬ (stepK (KOp.assignThread 1 1) sampleKState).holdsRec 0) :=
  ⟨by decide, by decide, (c2_key_uniqueness_and_eviction sampleKOps).1.1,
    (c2_key_uniqueness_and_eviction sampleKOps).2.1 sampleKState 1 1 0 (by decide) (by decide)⟩

end PMKeys

/-! ## Handler engine: idempotence and orphans (C7, C8) -/

/-- A key absent from every binding looks up to nothing. -/
theorem lookupK_none_of_forall {κ : Type} [DecidableEq κ] (k : κ) :
    ∀ idx : Index κ, (∀ p ∈ idx, p.1 ≠ k) → lookupK k idx = none := by
  intro idx
  induction idx with
  | nil => intro _; rfl
  | cons q rest ih =>
    intro h
    rcases q with ⟨k', v⟩
    have hk : k' ≠ k := h (k', v) (List.mem_cons_self _ _)
    simp only [lookupK, if_neg hk]
    exact ih (fun p hp => h p (List.mem_cons_of_mem _ hp))

/-- Purging a different record's bindings does not change a successful
lookup. -/
theorem lookupK_dropRec_of_ne {κ : Type} [DecidableEq κ] (k : κ) (r rp : Nat)
    (hne : r ≠ rp) :
    ∀ idx : Index κ, lookupK k idx = some r → lookupK k (dropRec rp idx) = some r := by
  intro idx
  induction idx with
  | nil =>
    intro h
    simp [lookupK] at h
  | cons q rest ih =>
    intro hlk
    rcases q with ⟨k', v⟩
    by_cases hk : k' = k
    · subst hk
      have hv : v = r := by simpa [lookupK] using hlk
      subst hv
      simp [dropRec, List.filter_cons, hne, lookupK]
    · have hlk' : lookupK k rest = some r := by simpa [lookupK, hk] using hlk
      by_cases hvrp : v = rp
      · subst hvrp
        simpa [dropRec, List.filter_cons] using ih hlk'
      · simpa [dropRec, List.filter_cons, hvrp, lookupK, hk] using ih hlk'

namespace PMEngine

/-- Updating a stored record with a function that fixes it leaves the
state unchanged. -/
theorem updateRec_eq_self (rid : Nat) (f : PRec → PRec) (s : EState)
    (h : ∀ p, s.records rid = some p → f p = p) : s.updateRec rid f = s := by
  have hrec : (fun j => if j = rid then (s.records j).map f else s.records j) = s.records := by
    funext j
    by_cases hj : j = rid
    · subst hj
      cases hx : s.records j with
      | none => simp
      | some p => simp [h p hx]
    · simp [hj]
  show { s with records := fun j => if j = rid then (s.records j).map f else s.records j } = s
  rw [hrec]

/-- Every embedded handler is idempotent under immediate duplicate
delivery: processing the same event twice in a row leaves the same state
as processing it once. -/
theorem stepE_idem (e : Ev) (s : EState) : stepE e (stepE e s) = stepE e s := by
  cases e with
  | presentStart tid pid qpc swap sync flags rt =>
    cases hlk : lookupK tid s.mPresentByThreadId with
    | some rid =>
      have hA : lookupK tid
          (stepE (Ev.presentStart tid pid qpc swap sync flags rt) s).mPresentByThreadId =
          some rid := by
        simp [stepE, hlk, EState.updateRec]
      have hRec : (stepE (Ev.presentStart tid pid qpc swap sync flags rt) s).records rid =
          (s.records rid).map (setRuntimeFields swap sync flags rt) := by
        simp [stepE, hlk, EState.updateRec]
      have hC : ∀ p,
          (stepE (Ev.presentStart tid pid qpc swap sync flags rt) s).records rid = some p →
          setRuntimeFields swap sync flags rt p = p := by
        intro p hp
        rw [hRec] at hp
        cases hx : s.records rid with
        | none => rw [hx] at hp; simp at hp
        | some q =>
          rw [hx] at hp
          simp only [Option.map_some', Option.some.injEq] at hp
          rw [← hp]
          rfl
      generalize stepE (Ev.presentStart tid pid qpc swap sync flags rt) s = S at hA hC ⊢
      simp only [stepE, hA]
      exact updateRec_eq_self rid _ S hC
    | none =>
      have hA : lookupK tid
          (stepE (Ev.presentStart tid pid qpc swap sync flags rt) s).mPresentByThreadId =
          some s.nextId := by
        simp [stepE, hlk, lookupK]
      have hRec : (stepE (Ev.presentStart tid pid qpc swap sync flags rt) s).records s.nextId =
          some (newPRec qpc pid tid swap sync flags rt) := by
        simp [stepE, hlk]
      have hC : ∀ p,
          (stepE (Ev.presentStart tid pid qpc swap sync flags rt) s).records s.nextId = some p →
          setRuntimeFields swap sync flags rt p = p := by
        intro p hp
        rw [hRec] at hp
        simp only [Option.some.injEq] at hp
        rw [← hp]
        rfl
      generalize stepE (Ev.presentStart tid pid qpc swap sync flags rt) s = S at hA hC ⊢
      simp only [stepE, hA]
      exact updateRec_eq_self s.nextId _ S hC
  | presentStop tid qpc =>
    cases hlk : lookupK tid s.mPresentByThreadId with
    | some rid =>
      have hA : lookupK tid (stepE (Ev.presentStop tid qpc) s).mPresentByThreadId = none := by
        simp only [stepE, hlk]
        apply lookupK_none_of_forall
        intro p hp
        have := (List.mem_filter.mp hp).2
        simpa using this
      generalize stepE (Ev.presentStop tid qpc) s = S at hA ⊢
      simp [stepE, hA]
    | none =>
      have h1 : stepE (Ev.presentStop tid qpc) s = s := by simp [stepE, hlk]
      rw [h1]
      exact h1
  | queueSubmit tid seq =>
    cases hlk : lookupK tid s.mPresentByThreadId with
    | none =>
      have h1 : stepE (Ev.queueSubmit tid seq) s = s := by simp [stepE, hlk]
      rw [h1]
      exact h1
    | some rid =>
      have hgg : ∀ q : PRec,
          ({ { q with QueueSubmitSequence := seq } with QueueSubmitSequence := seq } : PRec) =
          { q with QueueSubmitSequence := seq } := fun _ => rfl
      have hCgen : ∀ S : EState, S.records rid = (s.records rid).map
            (fun p => { p with QueueSubmitSequence := seq }) →
          ∀ p, S.records rid = some p → ({ p with QueueSubmitSequence := seq } : PRec) = p := by
        intro S hS p hp
        rw [hS] at hp
        cases hx : s.records rid with
        | none => rw [hx] at hp; simp at hp
        | some q =>
          rw [hx] at hp
          simp only [Option.map_some', Option.some.injEq] at hp
          rw [← hp]
      cases hlk2 : lookupK seq s.mPresentsBySubmitSequence with
      | some rp =>
        by_cases hr : rp = rid
        · subst hr
          have hA : lookupK tid (stepE (Ev.queueSubmit tid seq) s).mPresentByThreadId =
              some rp := by
            simp [stepE, hlk, hlk2, EState.updateRec]
          have hB : lookupK seq (stepE (Ev.queueSubmit tid seq) s).mPresentsBySubmitSequence =
              some rp := by
            simp [stepE, hlk, hlk2, EState.updateRec]
          have hRec : (stepE (Ev.queueSubmit tid seq) s).records rp = (s.records rp).map
              (fun p => { p with QueueSubmitSequence := seq }) := by
            simp [stepE, hlk, hlk2, EState.updateRec]
          have hC := hCgen _ hRec
          generalize stepE (Ev.queueSubmit tid seq) s = S at hA hB hC ⊢
          simp only [stepE, hA, hB, if_pos rfl]
          exact updateRec_eq_self rp _ S hC
        · have hrne : rid ≠ rp := fun h => hr h.symm
          have hA : lookupK tid (stepE (Ev.queueSubmit tid seq) s).mPresentByThreadId =
              some rid := by
            simp only [stepE, hlk, hlk2, if_neg hr]
            exact lookupK_dropRec_of_ne tid rid rp hrne _ hlk
          have hB : lookupK seq (stepE (Ev.queueSubmit tid seq) s).mPresentsBySubmitSequence =
              some rid := by
            simp [stepE, hlk, hlk2, if_neg hr, lookupK]
          have hRec : (stepE (Ev.queueSubmit tid seq) s).records rid = (s.records rid).map
              (fun p => { p with QueueSubmitSequence := seq }) := by
            simp only [stepE, hlk, hlk2, if_neg hr, EState.evictLost, EState.updateRec]
            rw [if_neg hrne]
            simp
          have hC := hCgen _ hRec
          generalize stepE (Ev.queueSubmit tid seq) s = S at hA hB hC ⊢
          simp only [stepE, hA, hB, if_pos rfl]
          exact updateRec_eq_self rid _ S hC
      | none =>
        have hA : lookupK tid (stepE (Ev.queueSubmit tid seq) s).mPresentByThreadId =
            some rid := by
          simp [stepE, hlk, hlk2, EState.updateRec]
        have hB : lookupK seq (stepE (Ev.queueSubmit tid seq) s).mPresentsBySubmitSequence =
            some rid := by
          simp [stepE, hlk, hlk2, EState.updateRec, lookupK]
        have hRec : (stepE (Ev.queueSubmit tid seq) s).records rid = (s.records rid).map
            (fun p => { p with QueueSubmitSequence := seq }) := by
          simp [stepE, hlk, hlk2, EState.updateRec]
        have hC := hCgen _ hRec
        generalize stepE (Ev.queueSubmit tid seq) s = S at hA hB hC ⊢
        simp only [stepE, hA, hB, if_pos rfl]
        exact updateRec_eq_self rid _ S hC
  | mmioFlip seq qpc =>
    cases hlk : lookupK seq s.mPresentsBySubmitSequence with
    | some rid =>
      have hA : lookupK seq (stepE (Ev.mmioFlip seq qpc) s).mPresentsBySubmitSequence =
          some rid := by
        simp [stepE, hlk, EState.updateRec]
      have hRec : (stepE (Ev.mmioFlip seq qpc) s).records rid = (s.records rid).map
          (fun p => { p with ReadyTime := qpc }) := by
        simp [stepE, hlk, EState.updateRec]
      have hC : ∀ p, (stepE (Ev.mmioFlip seq qpc) s).records rid = some p →
          ({ p with ReadyTime := qpc } : PRec) = p := by
        intro p hp
        rw [hRec] at hp
        cases hx : s.records rid with
        | none => rw [hx] at hp; simp at hp
        | some q =>
          rw [hx] at hp
          simp only [Option.map_some', Option.some.injEq] at hp
          rw [← hp]
      generalize stepE (Ev.mmioFlip seq qpc) s = S at hA hC ⊢
      simp only [stepE, hA]
      exact updateRec_eq_self rid _ S hC
    | none =>
      have h1 : stepE (Ev.mmioFlip seq qpc) s = s := by simp [stepE, hlk]
      rw [h1]
      exact h1
  | vsyncDPC seq qpc =>
    cases hlk : lookupK seq s.mPresentsBySubmitSequence with
    | some rid =>
      have hA : lookupK seq (stepE (Ev.vsyncDPC seq qpc) s).mPresentsBySubmitSequence =
          some rid := by
        simp [stepE, hlk, EState.updateRec]
      have hRec : (stepE (Ev.vsyncDPC seq qpc) s).records rid = (s.records rid).map
          (fun p => { p with ScreenTime := qpc }) := by
        simp [stepE, hlk, EState.updateRec]
      have hC : ∀ p, (stepE (Ev.vsyncDPC seq qpc) s).records rid = some p →
          ({ p with ScreenTime := qpc } : PRec) = p := by
        intro p hp
        rw [hRec] at hp
        cases hx : s.records rid with
        | none => rw [hx] at hp; simp at hp
        | some q =>
          rw [hx] at hp
          simp only [Option.map_some', Option.some.injEq] at hp
          rw [← hp]
      generalize stepE (Ev.vsyncDPC seq qpc) s = S at hA hC ⊢
      simp only [stepE, hA]
      exact updateRec_eq_self rid _ S hC
    | none =>
      have h1 : stepE (Ev.vsyncDPC seq qpc) s = s := by simp [stepE, hlk]
      rw [h1]
      exact h1

/-- C7: for every event and every engine state in which the
key-to-record binding established by the event already matches,
delivering the event a second time immediately after the first leaves
the engine state unchanged — the handlers are idempotent under duplicate
delivery. -/
theorem c7_handlers_idempotent (e : Ev) (s : EState)
    (_h : bindingMatches e (stepE e s) = true) :
    stepE e (stepE e s) = stepE e s :=
  stepE_idem e s

/-- C7 witness: a duplicate runtime present begin on thread 1 whose
binding matches after the first delivery. -/
theorem c7_handlers_idempotent_witness :
    (bindingMatches (Ev.presentStart 1 10 100 5 1 0 Runtime.DXGI)
      (stepE (Ev.presentStart 1 10 100 5 1 0 Runtime.DXGI) initE) = true) ∧
    stepE (Ev.presentStart 1 10 100 5 1 0 Runtime.DXGI)
        (stepE (Ev.presentStart 1 10 100 5 1 0 Runtime.DXGI) initE) =
      stepE (Ev.presentStart 1 10 100 5 1 0 Runtime.DXGI) initE :=
  ⟨by decide, c7_handlers_idempotent _ _ (by decide)⟩

/-- Processing never faults: every event stream runs to an `ok` state. -/
theorem runChecked_ok (es : List Ev) : ∀ s : EState, ∃ s', runChecked es s = Except.ok s' := by
  induction es with
  | nil => intro s; exact ⟨s, rfl⟩
  | cons e rest ih => intro s; exact ih (stepE e s)

/-- C8: an event whose correlation key resolves to no live record (an
orphan) is dropped silently — the engine state, including all output
queues, is unchanged — and no event is fatal: the engine processes any
event stream to completion. -/
theorem c8_orphans_dropped_engine_total :
    (∀ (e : Ev) (s : EState), orphanEvent e s = true → stepE e s = s) ∧
    (∀ (es : List Ev) (s : EState), ∃ s', runChecked es s = Except.ok s') := by
  constructor
  · intro e s h
    cases e with
    | presentStart tid pid qpc swap sync flags rt => simp [orphanEvent] at h
    | presentStop tid qpc =>
      have hlk : lookupK tid s.mPresentByThreadId = none := of_decide_eq_true h
      simp [stepE, hlk]
    | queueSubmit tid seq =>
      have hlk : lookupK tid s.mPresentByThreadId = none := of_decide_eq_true h
      simp [stepE, hlk]
    | mmioFlip seq qpc =>
      have hlk : lookupK seq s.mPresentsBySubmitSequence = none := of_decide_eq_true h
      simp [stepE, hlk]
    | vsyncDPC seq qpc =>
      have hlk : lookupK seq s.mPresentsBySubmitSequence = none := of_decide_eq_true h
      simp [stepE, hlk]
  · intro es s
    exact runChecked_ok es s

/-- C8 witness: a queue-submit on a thread with no in-progress present is
dropped, and a concrete stream of orphan events runs to completion. -/
theorem c8_orphans_dropped_engine_total_witness :
    (orphanEvent (Ev.queueSubmit 1 7) initE = true) ∧
    stepE (Ev.queueSubmit 1 7) initE = initE ∧
    (∃ s', runChecked [Ev.queueSubmit 1 7, Ev.vsyncDPC 7 300] initE = Except.ok s') :=
  ⟨by decide,
    c8_orphans_dropped_engine_total.1 (Ev.queueSubmit 1 7) initE (by decide),
    c8_orphans_dropped_engine_total.2 [Ev.queueSubmit 1 7, Ev.vsyncDPC 7 300] initE⟩

end PMEngine

/-! ## Completion Engine: per-process emission order (C1) -/

namespace PMOrder

/-- C1 counterexample: an interleaving in which a record is created with
an older `qpc_start` after a newer record of the same process was
already completed.  Process 10's emission order is then 150, 100 —
not ascending — so the per-process ordering does not hold for *every*
interleaving of input events. -/
theorem c1_counterexample :
    ¬ List.Pairwise (· < ·)
        (completedOf
          (runO [OOp.trackPresent 10 150, OOp.completePresent 10 150,
                 OOp.trackPresent 10 100, OOp.completePresent 10 100] initO) 10) := by
  decide

/-- Inserting a key above every element of an ascending list appends
it. -/
theorem insertQpc_of_gt (q : Nat) :
    ∀ l : List Nat, (∀ x ∈ l, x < q) → insertQpc q l = l ++ [q] := by
  intro l
  induction l with
  | nil => intro _; rfl
  | cons x xs ih =>
    intro h
    have hx : x < q := h x (List.mem_cons_self _ _)
    have h1 : ¬ q < x := by omega
    have h2 : ¬ q = x := by omega
    simp only [insertQpc, if_neg h1, if_neg h2, List.cons_append, List.cons.injEq, true_and]
    exact ih (fun y hy => h y (List.mem_cons_of_mem _ hy))

/-- Filtering a batch of single-process emissions for a process keeps
everything (same process) or nothing (another process). -/
theorem filterMapSnd_const (pidd q : Nat) :
    ∀ T : List Nat,
      (((T.map (fun x => (pidd, x))).filter (fun e => decide (e.1 = q))).map Prod.snd) =
      if pidd = q then T else [] := by
  intro T
  induction T with
  | nil => by_cases hp : pidd = q <;> simp [hp]
  | cons x xs ih =>
    by_cases hp : pidd = q
    · subst hp
      simp [List.filter_cons, ih]
    · simp [List.filter_cons, hp, ih]

/-- The ordering invariant of the Completion Engine: if the per-process
maps are ascending, past emissions per process are ascending and below
every live record, and every future creation carries a `qpc_start`
above everything stored, then running any operation sequence keeps every
process's emission order ascending. -/
theorem runO_inv (ops : List OOp) :
    ∀ s : OState,
      (ops.filterMap trackQpc?).Pairwise (· < ·) →
      (∀ p, (s.mPresentsByProcess p).Pairwise (· < ·)) →
      (∀ p, (completedOf s p).Pairwise (· < ·)) →
      (∀ p, ∀ qc ∈ completedOf s p, ∀ ql ∈ s.mPresentsByProcess p, qc < ql) →
      (∀ c ∈ ops.filterMap trackQpc?, ∀ p,
        (∀ x ∈ s.mPresentsByProcess p, x < c) ∧ (∀ x ∈ completedOf s p, x < c)) →
      ∀ p, (completedOf (runO ops s) p).Pairwise (· < ·) := by
  induction ops with
  | nil =>
    intro s _ _ hcomp _ _ p
    simpa [runO] using hcomp p
  | cons op rest ih =>
    intro s hmono hlive hcomp hfront hfut p
    have hrun : runO (op :: rest) s = runO rest (stepO op s) := rfl
    rw [hrun]
    cases op with
    | trackPresent pidd c =>
      have hfm : ((OOp.trackPresent pidd c :: rest).filterMap trackQpc?) =
          c :: rest.filterMap trackQpc? := by
        simp [trackQpc?]
      rw [hfm] at hmono
      have hmono' : (rest.filterMap trackQpc?).Pairwise (· < ·) :=
        (List.pairwise_cons.mp hmono).2
      have hclt : ∀ c' ∈ rest.filterMap trackQpc?, c < c' :=
        (List.pairwise_cons.mp hmono).1
      have hcgt := hfut c (by rw [hfm]; exact List.mem_cons_self _ _)
      have hins : insertQpc c (s.mPresentsByProcess pidd) =
          s.mPresentsByProcess pidd ++ [c] :=
        insertQpc_of_gt c _ (fun x hx => (hcgt pidd).1 x hx)
      have hliveP : (stepO (OOp.trackPresent pidd c) s).mPresentsByProcess pidd =
          s.mPresentsByProcess pidd ++ [c] := by
        simp [stepO, hins]
      have hliveQ : ∀ q, q ≠ pidd →
          (stepO (OOp.trackPresent pidd c) s).mPresentsByProcess q =
          s.mPresentsByProcess q := by
        intro q hq
        simp [stepO, hq]
      have hcompS : ∀ q, completedOf (stepO (OOp.trackPresent pidd c) s) q =
          completedOf s q := by
        intro q
        simp [stepO, completedOf]
      apply ih (stepO (OOp.trackPresent pidd c) s) hmono'
      · intro q
        by_cases hq : q = pidd
        · subst hq
          rw [hliveP, List.pairwise_append]
          refine ⟨hlive q, List.pairwise_singleton _ _, ?_⟩
          intro a ha b hb
          rw [List.mem_singleton] at hb
          subst hb
          exact (hcgt q).1 a ha
        · rw [hliveQ q hq]
          exact hlive q
      · intro q
        rw [hcompS q]
        exact hcomp q
      · intro q qc hqc ql hql
        rw [hcompS q] at hqc
        by_cases hq : q = pidd
        · subst hq
          rw [hliveP] at hql
          rcases List.mem_append.mp hql with h | h
          · exact hfront q qc hqc ql h
          · rw [List.mem_singleton] at h
            subst h
            exact (hcgt q).2 qc hqc
        · rw [hliveQ q hq] at hql
          exact hfront q qc hqc ql hql
      · intro c' hc' q
        have hcc' : c < c' := hclt c' hc'
        have hold := hfut c' (by rw [hfm]; exact List.mem_cons_of_mem _ hc') q
        constructor
        · intro x hx
          by_cases hq : q = pidd
          · subst hq
            rw [hliveP] at hx
            rcases List.mem_append.mp hx with h | h
            · exact hold.1 x h
            · rw [List.mem_singleton] at h
              subst h
              exact hcc'
          · rw [hliveQ q hq] at hx
            exact hold.1 x hx
        · intro x hx
          rw [hcompS q] at hx
          exact hold.2 x hx
    | completePresent pidd c =>
      have hfm : ((OOp.completePresent pidd c :: rest).filterMap trackQpc?) =
          rest.filterMap trackQpc? := by
        simp [trackQpc?]
      rw [hfm] at hmono
      have hfut' : ∀ c' ∈ rest.filterMap trackQpc?, ∀ q,
          (∀ x ∈ s.mPresentsByProcess q, x < c') ∧ (∀ x ∈ completedOf s q, x < c') :=
        fun c' hc' => hfut c' (by rw [hfm]; exact hc')
      by_cases hc : c ∈ s.mPresentsByProcess pidd
      · have hliveP : (stepO (OOp.completePresent pidd c) s).mPresentsByProcess pidd =
            (s.mPresentsByProcess pidd).dropWhile (fun x => decide (x ≤ c)) := by
          simp [stepO, hc]
        have hliveQ : ∀ q, q ≠ pidd →
            (stepO (OOp.completePresent pidd c) s).mPresentsByProcess q =
            s.mPresentsByProcess q := by
          intro q hq
          simp [stepO, hc, hq]
        have hout : (stepO (OOp.completePresent pidd c) s).completedOut =
            s.completedOut ++
              ((s.mPresentsByProcess pidd).takeWhile (fun x => decide (x ≤ c))).map
                (fun x => (pidd, x)) := by
          simp [stepO, hc]
        have hcompP : ∀ q, completedOf (stepO (OOp.completePresent pidd c) s) q =
            completedOf s q ++
              (if pidd = q then
                (s.mPresentsByProcess pidd).takeWhile (fun x => decide (x ≤ c)) else []) := by
          intro q
          simp only [completedOf]
          rw [hout, List.filter_append, List.map_append, filterMapSnd_const]
        have hTD : (s.mPresentsByProcess pidd).takeWhile (fun x => decide (x ≤ c)) ++
            (s.mPresentsByProcess pidd).dropWhile (fun x => decide (x ≤ c)) =
            s.mPresentsByProcess pidd := List.takeWhile_append_dropWhile _ _
        obtain ⟨hTs, hDs, hTltD⟩ := List.pairwise_append.mp
          (show List.Pairwise (· < ·)
              ((s.mPresentsByProcess pidd).takeWhile (fun x => decide (x ≤ c)) ++
               (s.mPresentsByProcess pidd).dropWhile (fun x => decide (x ≤ c))) by
            rw [hTD]; exact hlive pidd)
        have hTsub : ∀ x ∈ (s.mPresentsByProcess pidd).takeWhile (fun x => decide (x ≤ c)),
            x ∈ s.mPresentsByProcess pidd :=
          fun x hx => (List.takeWhile_sublist _).subset hx
        have hDsub : ∀ x ∈ (s.mPresentsByProcess pidd).dropWhile (fun x => decide (x ≤ c)),
            x ∈ s.mPresentsByProcess pidd :=
          fun x hx => (List.dropWhile_sublist _).subset hx
        apply ih (stepO (OOp.completePresent pidd c) s) hmono
        · intro q
          by_cases hq : q = pidd
          · subst hq
            rw [hliveP]
            exact hDs
          · rw [hliveQ q hq]
            exact hlive q
        · intro q
          rw [hcompP q]
          by_cases hq : pidd = q
          · subst hq
            rw [if_pos rfl, List.pairwise_append]
            refine ⟨hcomp pidd, hTs, ?_⟩
            intro a ha b hb
            exact hfront pidd a ha b (hTsub b hb)
          · rw [if_neg hq, List.append_nil]
            exact hcomp q
        · intro q qc hqc ql hql
          rw [hcompP q] at hqc
          by_cases hq : pidd = q
          · subst hq
            rw [if_pos rfl] at hqc
            rw [hliveP] at hql
            rcases List.mem_append.mp hqc with h | h
            · exact hfront pidd qc h ql (hDsub ql hql)
            · exact hTltD qc h ql hql
          · rw [if_neg hq, List.append_nil] at hqc
            have hq' : q ≠ pidd := fun hqe => hq hqe.symm
            rw [hliveQ q hq'] at hql
            exact hfront q qc hqc ql hql
        · intro c' hc' q
          have hold := hfut' c' hc' q
          constructor
          · intro x hx
            by_cases hq : q = pidd
            · subst hq
              rw [hliveP] at hx
              exact hold.1 x (hDsub x hx)
            · rw [hliveQ q hq] at hx
              exact hold.1 x hx
          · intro x hx
            rw [hcompP q] at hx
            rcases List.mem_append.mp hx with h | h
            · exact hold.2 x h
            · by_cases hq : pidd = q
              · subst hq
                rw [if_pos rfl] at h
                exact (hfut' c' hc' pidd).1 x (hTsub x h)
              · rw [if_neg hq] at h
                exact absurd h (List.not_mem_nil x)
      · have hstep : stepO (OOp.completePresent pidd c) s = s := by
          simp [stepO, hc]
        rw [hstep]
        exact ih s hmono hlive hcomp hfront hfut' p
    | removeLostPresent pidd c =>
      have hfm : ((OOp.removeLostPresent pidd c :: rest).filterMap trackQpc?) =
          rest.filterMap trackQpc? := by
        simp [trackQpc?]
      rw [hfm] at hmono
      have hliveP : (stepO (OOp.removeLostPresent pidd c) s).mPresentsByProcess pidd =
          (s.mPresentsByProcess pidd).erase c := by
        simp [stepO]
      have hliveQ : ∀ q, q ≠ pidd →
          (stepO (OOp.removeLostPresent pidd c) s).mPresentsByProcess q =
          s.mPresentsByProcess q := by
        intro q hq
        simp [stepO, hq]
      have hcompS : ∀ q, completedOf (stepO (OOp.removeLostPresent pidd c) s) q =
          completedOf s q := by
        intro q
        simp [stepO, completedOf]
      have hEsub : ∀ x ∈ (s.mPresentsByProcess pidd).erase c, x ∈ s.mPresentsByProcess pidd :=
        fun x hx => (List.erase_sublist _ _).subset hx
      apply ih (stepO (OOp.removeLostPresent pidd c) s) hmono
      · intro q
        by_cases hq : q = pidd
        · subst hq
          rw [hliveP]
          exact List.Pairwise.sublist (List.erase_sublist _ _) (hlive q)
        · rw [hliveQ q hq]
          exact hlive q
      · intro q
        rw [hcompS q]
        exact hcomp q
      · intro q qc hqc ql hql
        rw [hcompS q] at hqc
        by_cases hq : q = pidd
        · subst hq
          rw [hliveP] at hql
          exact hfront q qc hqc ql (hEsub ql hql)
        · rw [hliveQ q hq] at hql
          exact hfront q qc hqc ql hql
      · intro c' hc' q
        have hold := hfut c' (by rw [hfm]; exact hc') q
        constructor
        · intro x hx
          by_cases hq : q = pidd
          · subst hq
            rw [hliveP] at hx
            exact hold.1 x (hEsub x hx)
          · rw [hliveQ q hq] at hx
            exact hold.1 x hx
        · intro x hx
          rw [hcompS q] at hx
          exact hold.2 x hx

/-- C1 (amended): provided records are created with strictly increasing
`qpc_start` along the stream (the monotone QPC timebase), completed
records are emitted per process in strictly increasing `qpc_start`
order, for every interleaving of completions and losses. -/
theorem c1_per_process_ordering (ops : List OOp) (pid : Nat)
    (hmono : (ops.filterMap trackQpc?).Pairwise (· < ·)) :
    List.Pairwise (· < ·) (completedOf (runO ops initO) pid) := by
  apply runO_inv ops initO hmono
  · intro q
    simp [initO]
  · intro q
    simp [initO, completedOf]
  · intro q qc hqc
    simp [initO, completedOf] at hqc
  · intro c _ q
    constructor
    · intro x hx
      simp [initO] at hx
    · intro x hx
      simp [initO, completedOf] at hx

/-- C1 witness: createds with increasing `qpc_start`, completed newest
first; emission for process 10 is ascending. -/
theorem c1_per_process_ordering_witness :
    (([OOp.trackPresent 10 100, OOp.trackPresent 10 150,
       OOp.completePresent 10 150].filterMap trackQpc?).Pairwise (· < ·)) ∧
    List.Pairwise (· < ·)
      (completedOf
        (runO [OOp.trackPresent 10 100, OOp.trackPresent 10 150,
               OOp.completePresent 10 150] initO) 10) :=
  ⟨by decide,
    c1_per_process_ordering
      [OOp.trackPresent 10 100, OOp.trackPresent 10 150, OOp.completePresent 10 150]
      10 (by decide)⟩

end PMOrder

end PresentMon
